import Mathlib

/-!
Verification development for the web-runner automation engine.

This file gives a shallow embedding, in Lean 4, of the dynamic
element-resolution and action-execution core of the repository:

* `find_element_dynamically` / `find_all_elements_dynamically`
  (playwright_handler.py) — the breadth-first, depth- and time-bounded
  search for elements across nested iframe scopes;
* `execute_actions_async` (playwright_handler.py) — the per-step action
  executor threading scope state across a script;
* `run_playwright_automation_async` (playwright_handler.py) — the run
  orchestrator wrapping the executor;
* `extract_text_from_pdf_sync` (utils.py) — the PDF text extractor.

External collaborators (the Playwright browser engine, the HTTP stack,
the PyMuPDF parser, `urllib.parse.urljoin`) are modelled as oracle
functions supplied through an environment record, exactly at the
interface boundary the source code calls them.  Wall-clock timeouts are
modelled as an abstract budget of loop iterations: the source checks its
monotonic clock once per queue dequeue and aborts when the budget is
exhausted, which the model mirrors with a decreasing `Nat` budget.
-/

/-! ## String helpers mirroring Python primitives -/

/-- Python `str.lower`, on the code points of a string. -/
def lowerChars (s : String) : List Char := s.data.map Char.toLower

/-- Python `str.lower()` as a `String`. -/
def toLowerStr (s : String) : String := String.mk (lowerChars s)

/-- Python `url.lower().endswith(".pdf")` (playwright_handler.py line 464). -/
def endsWithPdf (s : String) : Bool :=
  List.isSuffixOf (String.data ".pdf") (lowerChars s)

/-- Python `str.strip()`: drop leading and trailing whitespace. -/
def stripStr (s : String) : String :=
  String.mk (((s.data.dropWhile Char.isWhitespace).reverse.dropWhile
    Char.isWhitespace).reverse)

/-- Python `s.startswith("Error:")`, used to classify extractor output. -/
def startsWithError (s : String) : Bool :=
  List.isPrefixOf (String.data "Error:") s.data

/-! ## AuxTextExtractor: `utils.extract_text_from_pdf_sync`

The PyMuPDF library (`fitz`) is external to the core; its behaviour on a
given byte string is modelled by a `PdfData` value describing how
`fitz.open` and the per-page `get_text` calls turn out on those bytes.
Each constructor corresponds to one `except` arm of the source function;
`parsed pages` is the non-raising arm, where each page either yields its
text or raises during processing. -/

/-- Outcome of processing one PDF page (utils.py lines 124-138). -/
inductive PdfPage where
  | content (s : String)
  | failed (msg : String)
deriving Repr, DecidableEq

/-- Outcome of `fitz.open` on a byte string (utils.py lines 121, 146-158). -/
inductive PdfData where
  | parsed (pages : List PdfPage)
  | emptyFile
  | fileDataError (msg : String)
  | runtimeError (msg : String)
  | unexpectedError (msg : String)
deriving Repr, DecidableEq

/-- Page separator joined between page texts (utils.py line 140). -/
def pageSeparator : String := "\n--- Page Separator ---\n"

/-- One entry of `text_parts` (utils.py lines 126-138): a page with text
contributes its stripped text; an empty-text page contributes nothing;
a failing page contributes an inline error marker. -/
def pagePart : Nat × PdfPage → Option String
  | (_, .content s) => if s = "" then none else some (stripStr s)
  | (i, .failed m) =>
      some ("--- Error processing page " ++ toString (i + 1) ++ ": " ++ m ++ " ---")

/-- The blank-line cleanup (utils.py line 142): split into lines, strip
each, keep the non-empty ones, rejoin with newlines. -/
def cleanLines (s : String) : String :=
  String.intercalate "\n" (((s.splitOn "\n").map stripStr).filter (fun l => l ≠ ""))

/-- `utils.extract_text_from_pdf_sync` (utils.py lines 116-158).  Every
`except` arm returns an error string; the success arm returns the
cleaned text or the explicit no-text marker. -/
def extract_text_from_pdf_sync : PdfData → String
  | .parsed pages =>
      let parts := pages.enum.filterMap pagePart
      let fullText := String.intercalate pageSeparator parts
      let cleaned := cleanLines fullText
      if cleaned = "" then "(No text extracted from PDF)" else cleaned
  | .emptyFile => "Error: PDF data is empty or corrupted."
  | .fileDataError m => "Error: PDF file data error - " ++ m
  | .runtimeError m => "Error: PDF processing failed (PyMuPDF RuntimeError) - " ++ m
  | .unexpectedError m => "Error: Unexpected error during PDF text extraction - " ++ m

/-- `True` exactly on the constructors that correspond to a raised
exception inside the source function (its `except` arms). -/
def PdfData.isFailure : PdfData → Bool
  | .parsed _ => false
  | _ => true

/-- An output that starts with the error marker stays an error marker
after appending the dynamic message part. -/
theorem startsWithError_append (a b : String) (h : startsWithError a = true) :
    startsWithError (a ++ b) = true := by
  unfold startsWithError at h ⊢
  rw [String.data_append]
  rw [List.isPrefixOf_iff_prefix] at h ⊢
  exact h.trans (List.prefix_append a.data b.data)

/-- A string that starts with the error marker is nonempty. -/
theorem ne_empty_of_startsWithError (s : String) (h : startsWithError s = true) :
    s ≠ "" := by
  intro he
  rw [he] at h
  exact absurd h (by decide)

/-- C9: `extract_text_from_pdf_sync` is deterministic on its input (two
calls on the same parse outcome agree), never raises past its boundary
(it is a total function into `String` and returns a nonempty string in
every case), maps every internal-exception case to an error string
starting with "Error:", and on a successfully opened document returns
either the explicit no-text marker or the cleaned page text. -/
theorem extract_pdf_deterministic_total (d : PdfData) :
    extract_text_from_pdf_sync d = extract_text_from_pdf_sync d ∧
    extract_text_from_pdf_sync d ≠ "" ∧
    (PdfData.isFailure d = true →
      startsWithError (extract_text_from_pdf_sync d) = true) ∧
    (∀ pages, d = PdfData.parsed pages →
      extract_text_from_pdf_sync d = "(No text extracted from PDF)" ∨
      extract_text_from_pdf_sync d =
        cleanLines (String.intercalate pageSeparator (pages.enum.filterMap pagePart))) := by
  refine ⟨rfl, ?_, ?_, ?_⟩
  · cases d with
    | parsed pages =>
        simp only [extract_text_from_pdf_sync]
        split
        · decide
        · assumption
    | emptyFile => decide
    | fileDataError m =>
        exact ne_empty_of_startsWithError _ (startsWithError_append _ m (by decide))
    | runtimeError m =>
        exact ne_empty_of_startsWithError _ (startsWithError_append _ m (by decide))
    | unexpectedError m =>
        exact ne_empty_of_startsWithError _ (startsWithError_append _ m (by decide))
  · intro hf
    cases d with
    | parsed pages => simp [PdfData.isFailure] at hf
    | emptyFile => decide
    | fileDataError m => exact startsWithError_append _ m (by decide)
    | runtimeError m => exact startsWithError_append _ m (by decide)
    | unexpectedError m => exact startsWithError_append _ m (by decide)
  · intro pages hd
    subst hd
    simp only [extract_text_from_pdf_sync]
    split
    · exact Or.inl rfl
    · exact Or.inr rfl

/-- Witness for C9: instantiates the theorem at a failing parse outcome
and at a concrete successfully parsed document, discharging both
hypotheses. -/
theorem extract_pdf_deterministic_total_witness :
    (PdfData.isFailure PdfData.emptyFile = true ∧
      startsWithError (extract_text_from_pdf_sync PdfData.emptyFile) = true) ∧
    (extract_text_from_pdf_sync (PdfData.parsed []) = "(No text extracted from PDF)" ∨
      extract_text_from_pdf_sync (PdfData.parsed []) =
        cleanLines (String.intercalate pageSeparator
          (List.enum ([] : List PdfPage) |>.filterMap pagePart))) :=
  ⟨⟨by decide, (extract_pdf_deterministic_total PdfData.emptyFile).2.2.1 (by decide)⟩,
   (extract_pdf_deterministic_total (PdfData.parsed [])).2.2.2 [] rfl⟩

/-! ## ScopeResolver: `find_element_dynamically` / `find_all_elements_dynamically`

A scope (a `Page` or a `FrameLocator`) evaluates the target selector and
enumerates its visible child iframes; both are host-capability calls, so
the DOM is modelled as a finite table of frames: `elems` lists the
identifiers of the elements matching the selector (and, for the single
mode, reaching the required state within the per-scope wait), `children`
lists the frame-table indices of the visible iframes in enumeration
order.  An out-of-range child index models an iframe whose root never
becomes attached within the per-child timeout: the source skips such a
child silently.  Indices may form cycles, as nothing in the source
restricts the embedding structure.

Scope identity is Python `id()`: every materialized `FrameLocator` is a
fresh object, so child scopes always carry fresh identities, modelled by
a monotone counter.  The visited set and the identity check at
playwright_handler.py lines 114-117 (and 211-214) are kept verbatim.
The overall wall-clock timeout (checked once per queue dequeue, lines
52-61 and 150-159) is modelled as a `Nat` budget of dequeues. -/

/-- One scope of the frame table. -/
structure Frame where
  elems : List Nat
  children : List Nat
deriving Repr, DecidableEq

/-- The frame table of a page. -/
abbrev Dom := List Frame

/-- Look up a frame; out-of-range lookups behave as an empty scope. -/
def frameAt (dom : Dom) (i : Nat) : Frame := (dom.get? i).getD ⟨[], []⟩

/-- A queue entry of the dynamic search: scope identity (`id()` of the
locator object), frame-table index, and depth. -/
structure QEntry where
  sid : Nat
  idx : Nat
  depth : Nat
deriving Repr, DecidableEq

/-- The iframe loop of the dynamic search (playwright_handler.py lines
99-125): for each visible child iframe in enumeration order, try to
materialize it (skip silently when its root never attaches, modelled by
an out-of-range index), take the fresh locator identity, and enqueue it
unless that identity was already visited.  Returns the entries to append
to the queue, the updated visited set, and the updated identity counter. -/
def enqueueChildren (domLen childDepth : Nat) :
    List Nat → List Nat → Nat → List QEntry × List Nat × Nat
  | [], visited, fresh => ([], visited, fresh)
  | c :: cs, visited, fresh =>
      if c < domLen then
        if fresh ∈ visited then
          enqueueChildren domLen childDepth cs visited fresh
        else
          let rest := enqueueChildren domLen childDepth cs (fresh :: visited) (fresh + 1)
          (⟨fresh, c, childDepth⟩ :: rest.1, rest.2)
      else
        enqueueChildren domLen childDepth cs visited fresh

/-- The single-element search loop (playwright_handler.py lines 52-128).
Dequeues a scope; if the selector matches there, returns the first match
together with the scope; otherwise, when below the depth bound, enqueues
the scope's children and continues.  The budget models the overall
timeout; exhausting it returns `none` as the source returns
`(None, None)`.  Alongside the result, the list of dequeued entries is
returned for use in the stated properties. -/
def findSingleLoop (dom : Dom) (maxDepth : Nat) :
    Nat → List QEntry → List Nat → Nat → Option (Nat × QEntry) × List QEntry
  | 0, _, _, _ => (none, [])
  | _ + 1, [], _, _ => (none, [])
  | b + 1, q :: qs, visited, fresh =>
      match (frameAt dom q.idx).elems with
      | e :: _ => (some (e, q), [q])
      | [] =>
          if q.depth < maxDepth then
            let ch := enqueueChildren dom.length (q.depth + 1)
                (frameAt dom q.idx).children visited fresh
            let rest := findSingleLoop dom maxDepth b (qs ++ ch.1) ch.2.1 ch.2.2
            (rest.1, q :: rest.2)
          else
            let rest := findSingleLoop dom maxDepth b qs visited fresh
            (rest.1, q :: rest.2)

/-- The multi-element search loop (playwright_handler.py lines 150-225):
collects every match of every dequeued scope, tagged with the scope it
was found in, with no first-wins short-circuit, and keeps what was
accumulated when the budget runs out. -/
def findAllLoop (dom : Dom) (maxDepth : Nat) :
    Nat → List QEntry → List Nat → Nat → List (Nat × QEntry) × List QEntry
  | 0, _, _, _ => ([], [])
  | _ + 1, [], _, _ => ([], [])
  | b + 1, q :: qs, visited, fresh =>
      let here := (frameAt dom q.idx).elems.map (fun e => (e, q))
      if q.depth < maxDepth then
        let ch := enqueueChildren dom.length (q.depth + 1)
            (frameAt dom q.idx).children visited fresh
        let rest := findAllLoop dom maxDepth b (qs ++ ch.1) ch.2.1 ch.2.2
        (here ++ rest.1, q :: rest.2)
      else
        let rest := findAllLoop dom maxDepth b qs visited fresh
        (here ++ rest.1, q :: rest.2)

/-- `find_element_dynamically` (playwright_handler.py lines 36-132),
seeded with the base locator at depth 0 and identity 0, the visited set
holding that identity, and the identity counter at 1 (lines 46-47). -/
def find_element_dynamically (dom : Dom) (start maxDepth budget : Nat) :
    Option (Nat × QEntry) :=
  (findSingleLoop dom maxDepth budget [⟨0, start, 0⟩] [0] 1).1

/-- The dequeue trace of the single-element search. -/
def findSingleTrace (dom : Dom) (start maxDepth budget : Nat) : List QEntry :=
  (findSingleLoop dom maxDepth budget [⟨0, start, 0⟩] [0] 1).2

/-- `find_all_elements_dynamically` (playwright_handler.py lines
135-229), seeded like the single-element search. -/
def find_all_elements_dynamically (dom : Dom) (start maxDepth budget : Nat) :
    List (Nat × QEntry) :=
  (findAllLoop dom maxDepth budget [⟨0, start, 0⟩] [0] 1).1

/-- The dequeue trace of the multi-element search. -/
def findAllTrace (dom : Dom) (start maxDepth budget : Nat) : List QEntry :=
  (findAllLoop dom maxDepth budget [⟨0, start, 0⟩] [0] 1).2

/-- Reference breadth-first enumeration of scopes: the seed scope first,
then, level by level, the materializable children of each visited scope
in enumeration order, bounded by depth and by the same dequeue budget.
No identity bookkeeping: this is the traversal order the specification
describes. -/
def bfsScopes (dom : Dom) (maxDepth : Nat) :
    Nat → List (Nat × Nat) → List (Nat × Nat)
  | 0, _ => []
  | _ + 1, [] => []
  | b + 1, p :: qs =>
      let kids := if p.2 < maxDepth then
          ((frameAt dom p.1).children.filter (fun c => c < dom.length)).map
            (fun c => (c, p.2 + 1))
        else []
      p :: bfsScopes dom maxDepth b (qs ++ kids)

/-- Children are enqueued at exactly the announced child depth. -/
theorem enqueueChildren_depth (domLen childDepth : Nat) :
    ∀ (cs visited : List Nat) (fresh : Nat) (q : QEntry),
    q ∈ (enqueueChildren domLen childDepth cs visited fresh).1 → q.depth = childDepth := by
  intro cs
  induction cs with
  | nil => intro visited fresh q hq; simp [enqueueChildren] at hq
  | cons c cs ih =>
      intro visited fresh q hq
      simp only [enqueueChildren] at hq
      split at hq
      · split at hq
        · exact ih _ _ q hq
        · rcases List.mem_cons.mp hq with h | h
          · rw [h]
          · exact ih _ _ q h
      · exact ih _ _ q hq

/-- Enqueued children carry identities at or above the current counter. -/
theorem enqueueChildren_sid_ge (domLen childDepth : Nat) :
    ∀ (cs visited : List Nat) (fresh : Nat) (q : QEntry),
    q ∈ (enqueueChildren domLen childDepth cs visited fresh).1 → fresh ≤ q.sid := by
  intro cs
  induction cs with
  | nil => intro visited fresh q hq; simp [enqueueChildren] at hq
  | cons c cs ih =>
      intro visited fresh q hq
      simp only [enqueueChildren] at hq
      split at hq
      · split at hq
        · exact ih _ _ q hq
        · rcases List.mem_cons.mp hq with h | h
          · rw [h]
          · exact Nat.le_of_succ_le (ih _ _ q h)
      · exact ih _ _ q hq

/-- The identity counter never decreases. -/
theorem enqueueChildren_fresh_le (domLen childDepth : Nat) :
    ∀ (cs visited : List Nat) (fresh : Nat),
    fresh ≤ (enqueueChildren domLen childDepth cs visited fresh).2.2 := by
  intro cs
  induction cs with
  | nil => intro visited fresh; simp [enqueueChildren]
  | cons c cs ih =>
      intro visited fresh
      simp only [enqueueChildren]
      split
      · split
        · exact ih _ _
        · exact Nat.le_of_succ_le (ih (fresh :: visited) (fresh + 1))
      · exact ih _ _

/-- The visited set only grows. -/
theorem enqueueChildren_subset (domLen childDepth : Nat) :
    ∀ (cs visited : List Nat) (fresh x : Nat),
    x ∈ visited → x ∈ (enqueueChildren domLen childDepth cs visited fresh).2.1 := by
  intro cs
  induction cs with
  | nil => intro visited fresh x hx; simpa [enqueueChildren] using hx
  | cons c cs ih =>
      intro visited fresh x hx
      simp only [enqueueChildren]
      split
      · split
        · exact ih _ _ x hx
        · exact ih _ _ x (List.mem_cons_of_mem _ hx)
      · exact ih _ _ x hx

/-- Every enqueued child identity is recorded in the visited set, as the
source adds the identity right before appending to the queue. -/
theorem enqueueChildren_mem_visited (domLen childDepth : Nat) :
    ∀ (cs visited : List Nat) (fresh : Nat) (q : QEntry),
    q ∈ (enqueueChildren domLen childDepth cs visited fresh).1 →
    q.sid ∈ (enqueueChildren domLen childDepth cs visited fresh).2.1 := by
  intro cs
  induction cs with
  | nil => intro visited fresh q hq; simp [enqueueChildren] at hq
  | cons c cs ih =>
      intro visited fresh q hq
      simp only [enqueueChildren] at hq ⊢
      split at hq
      · rename_i hc
        simp only [hc, if_true]
        split at hq
        · rename_i hm
          simp only [hm, if_true]
          exact ih _ _ q hq
        · rename_i hm
          simp only [hm, if_false]
          rcases List.mem_cons.mp hq with h | h
          · rw [h]
            exact enqueueChildren_subset domLen childDepth cs _ _ fresh (List.mem_cons_self _ _)
          · exact ih _ _ q h
      · rename_i hc
        simp only [hc, if_false]
        exact ih _ _ q hq

/-- The identities enqueued by one expansion are pairwise distinct. -/
theorem enqueueChildren_sids_nodup (domLen childDepth : Nat) :
    ∀ (cs visited : List Nat) (fresh : Nat),
    ((enqueueChildren domLen childDepth cs visited fresh).1.map QEntry.sid).Nodup := by
  intro cs
  induction cs with
  | nil => intro visited fresh; simp [enqueueChildren]
  | cons c cs ih =>
      intro visited fresh
      simp only [enqueueChildren]
      split
      · split
        · exact ih _ _
        · refine List.nodup_cons.mpr ⟨?_, ih _ _⟩
          intro hmem
          rcases List.mem_map.mp hmem with ⟨q, hq, hsid⟩
          have hge := enqueueChildren_sid_ge domLen childDepth cs (fresh :: visited) (fresh + 1) q hq
          have hfr : QEntry.sid ⟨fresh, c, childDepth⟩ = fresh := rfl
          rw [hfr] at hsid
          omega
      · exact ih _ _

/-- The membership guard keeps the visited set duplicate-free. -/
theorem enqueueChildren_visited_nodup (domLen childDepth : Nat) :
    ∀ (cs visited : List Nat) (fresh : Nat), visited.Nodup →
    (enqueueChildren domLen childDepth cs visited fresh).2.1.Nodup := by
  intro cs
  induction cs with
  | nil => intro visited fresh hv; simpa [enqueueChildren] using hv
  | cons c cs ih =>
      intro visited fresh hv
      simp only [enqueueChildren]
      split
      · split
        · exact ih _ _ hv
        · rename_i hm
          exact ih _ _ (List.nodup_cons.mpr ⟨hm, hv⟩)
      · exact ih _ _ hv

/-- All recorded identities stay below the identity counter. -/
theorem enqueueChildren_lt_fresh (domLen childDepth : Nat) :
    ∀ (cs visited : List Nat) (fresh : Nat),
    (∀ x ∈ visited, x < fresh) →
    ∀ x ∈ (enqueueChildren domLen childDepth cs visited fresh).2.1,
    x < (enqueueChildren domLen childDepth cs visited fresh).2.2 := by
  intro cs
  induction cs with
  | nil => intro visited fresh hv; simpa [enqueueChildren] using hv
  | cons c cs ih =>
      intro visited fresh hv
      simp only [enqueueChildren]
      split
      · split
        · exact ih _ _ hv
        · refine ih (fresh :: visited) (fresh + 1) ?_
          intro x hx
          rcases List.mem_cons.mp hx with h | h
          · omega
          · have := hv x h; omega
      · exact ih _ _ hv

/-- Since materialized locators always carry fresh identities, the
membership guard never fires, and one expansion enqueues exactly the
materializable children, in enumeration order, at the child depth. -/
theorem enqueueChildren_proj (domLen childDepth : Nat) :
    ∀ (cs visited : List Nat) (fresh : Nat),
    (∀ x ∈ visited, x < fresh) →
    (enqueueChildren domLen childDepth cs visited fresh).1.map (fun q => (q.idx, q.depth)) =
      (cs.filter (fun c => c < domLen)).map (fun c => (c, childDepth)) := by
  intro cs
  induction cs with
  | nil => intro visited fresh hv; simp [enqueueChildren]
  | cons c cs ih =>
      intro visited fresh hv
      simp only [enqueueChildren, List.filter_cons]
      split
      · rename_i hc
        have hnm : fresh ∉ visited := fun hmem => absurd (hv fresh hmem) (by omega)
        simp only [hnm, if_false, List.map_cons, decide_eq_true_eq, hc, if_true]
        refine congrArg (List.cons _) ?_
        refine ih (fresh :: visited) (fresh + 1) ?_
        intro x hx
        rcases List.mem_cons.mp hx with h | h
        · omega
        · have := hv x h; omega
      · rename_i hc
        simp only [decide_eq_true_eq, hc, if_false]
        exact ih _ _ hv

/-- Every scope dequeued by the single-element loop, and in particular a
scope in which the element is found, lies within the depth bound, as
children are only enqueued (at depth + 1) when the current depth is
strictly below the bound. -/
theorem findSingleLoop_depth (dom : Dom) (maxDepth : Nat) :
    ∀ (b : Nat) (queue : List QEntry) (visited : List Nat) (fresh : Nat),
    (∀ q ∈ queue, q.depth ≤ maxDepth) →
    (∀ (e : Nat) (q : QEntry),
        (findSingleLoop dom maxDepth b queue visited fresh).1 = some (e, q) →
        q.depth ≤ maxDepth) ∧
    (∀ q ∈ (findSingleLoop dom maxDepth b queue visited fresh).2, q.depth ≤ maxDepth) := by
  intro b
  induction b with
  | zero => intro queue visited fresh hq; simp [findSingleLoop]
  | succ b ih =>
      intro queue visited fresh hq
      match queue with
      | [] => simp [findSingleLoop]
      | q :: qs =>
        cases hm : (frameAt dom q.idx).elems with
        | cons e es =>
            refine ⟨?_, ?_⟩
            · intro e' q' hres
              simp only [findSingleLoop, hm] at hres
              have hqq : q = q' := by
                injection hres with h
                exact congrArg Prod.snd h
              rw [← hqq]
              exact hq q (List.mem_cons_self _ _)
            · intro q' hq'
              simp only [findSingleLoop, hm] at hq'
              rcases List.mem_singleton.mp hq' with h
              rw [h]
              exact hq q (List.mem_cons_self _ _)
        | nil =>
            by_cases hd : q.depth < maxDepth
            · have hdep : ∀ q' ∈ qs ++ (enqueueChildren dom.length (q.depth + 1)
                  (frameAt dom q.idx).children visited fresh).1, q'.depth ≤ maxDepth := by
                intro q' hq'
                rcases List.mem_append.mp hq' with h | h
                · exact hq q' (List.mem_cons_of_mem _ h)
                · have := enqueueChildren_depth dom.length (q.depth + 1)
                    (frameAt dom q.idx).children visited fresh q' h
                  omega
              have ihr := ih (qs ++ (enqueueChildren dom.length (q.depth + 1)
                  (frameAt dom q.idx).children visited fresh).1)
                (enqueueChildren dom.length (q.depth + 1)
                  (frameAt dom q.idx).children visited fresh).2.1
                (enqueueChildren dom.length (q.depth + 1)
                  (frameAt dom q.idx).children visited fresh).2.2 hdep
              refine ⟨?_, ?_⟩
              · intro e' q' hres
                simp only [findSingleLoop, hm, hd, if_true] at hres
                exact ihr.1 e' q' hres
              · intro q' hq'
                simp only [findSingleLoop, hm, hd, if_true] at hq'
                rcases List.mem_cons.mp hq' with h | h
                · rw [h]; exact hq q (List.mem_cons_self _ _)
                · exact ihr.2 q' h
            · have ihr := ih qs visited fresh
                (fun q' h => hq q' (List.mem_cons_of_mem _ h))
              refine ⟨?_, ?_⟩
              · intro e' q' hres
                simp only [findSingleLoop, hm, hd, if_false] at hres
                exact ihr.1 e' q' hres
              · intro q' hq'
                simp only [findSingleLoop, hm, hd, if_false] at hq'
                rcases List.mem_cons.mp hq' with h | h
                · rw [h]; exact hq q (List.mem_cons_self _ _)
                · exact ihr.2 q' h

/-- The single-element loop dequeues pairwise distinct scope identities:
every identity enters the visited set at most once, queue entries always
carry identities already in the visited set, and the queue never holds
the same identity twice. -/
theorem findSingleLoop_trace (dom : Dom) (maxDepth : Nat) :
    ∀ (b : Nat) (queue : List QEntry) (visited : List Nat) (fresh : Nat),
    (∀ x ∈ visited, x < fresh) → visited.Nodup →
    (queue.map QEntry.sid).Nodup → (∀ q ∈ queue, q.sid ∈ visited) →
    ((findSingleLoop dom maxDepth b queue visited fresh).2.map QEntry.sid).Nodup ∧
    (∀ q ∈ (findSingleLoop dom maxDepth b queue visited fresh).2,
        q.sid ∈ queue.map QEntry.sid ∨ fresh ≤ q.sid) := by
  intro b
  induction b with
  | zero => intro queue visited fresh h1 h2 h3 h4; simp [findSingleLoop]
  | succ b ih =>
      intro queue visited fresh h1 h2 h3 h4
      match queue with
      | [] => simp [findSingleLoop]
      | q :: qs =>
        cases hm : (frameAt dom q.idx).elems with
        | cons e es =>
            simp only [findSingleLoop, hm]
            refine ⟨by simp, ?_⟩
            intro q' hq'
            rcases List.mem_singleton.mp hq' with h
            rw [h]
            exact Or.inl (List.mem_map_of_mem _ (List.mem_cons_self _ _))
        | nil =>
            by_cases hd : q.depth < maxDepth
            · set ch := enqueueChildren dom.length (q.depth + 1)
                (frameAt dom q.idx).children visited fresh with hch
              have h1' : ∀ x ∈ ch.2.1, x < ch.2.2 :=
                enqueueChildren_lt_fresh _ _ _ _ _ h1
              have h2' : ch.2.1.Nodup :=
                enqueueChildren_visited_nodup _ _ _ _ _ h2
              have hfr : fresh ≤ ch.2.2 := enqueueChildren_fresh_le _ _ _ _ _
              have hqsv : ∀ q' ∈ qs, q'.sid ∈ visited :=
                fun q' h => h4 q' (List.mem_cons_of_mem _ h)
              have h3' : ((qs ++ ch.1).map QEntry.sid).Nodup := by
                rw [List.map_append]
                refine List.Nodup.append ((List.nodup_cons.mp h3).2)
                  (enqueueChildren_sids_nodup _ _ _ _ _) ?_
                intro x hxs hxc
                rcases List.mem_map.mp hxs with ⟨q', hq', rfl⟩
                rcases List.mem_map.mp hxc with ⟨q'', hq'', heq⟩
                have hlt : q'.sid < fresh := h1 _ (hqsv q' hq')
                have hge : fresh ≤ q''.sid := enqueueChildren_sid_ge _ _ _ _ _ q'' hq''
                omega
              have h4' : ∀ q' ∈ qs ++ ch.1, q'.sid ∈ ch.2.1 := by
                intro q' hq'
                rcases List.mem_append.mp hq' with h | h
                · exact enqueueChildren_subset _ _ _ _ _ _ (hqsv q' h)
                · exact enqueueChildren_mem_visited _ _ _ _ _ q' h
              have ihr := ih (qs ++ ch.1) ch.2.1 ch.2.2 h1' h2' h3' h4'
              simp only [findSingleLoop, hm, hd, if_true]
              constructor
              · rw [List.map_cons]
                refine List.nodup_cons.mpr ⟨?_, ihr.1⟩
                intro hmem
                rcases List.mem_map.mp hmem with ⟨q', hq', hsid⟩
                have hqlt : q.sid < fresh := h1 _ (h4 q (List.mem_cons_self _ _))
                rcases ihr.2 q' hq' with hin | hge
                · rw [List.map_append] at hin
                  rcases List.mem_append.mp hin with hl | hr
                  · have := (List.nodup_cons.mp (by rw [List.map_cons] at h3; exact h3)).1
                    rw [hsid] at hl
                    exact this hl
                  · rcases List.mem_map.mp hr with ⟨q'', hq'', heq⟩
                    have := enqueueChildren_sid_ge _ _ _ _ _ q'' hq''
                    omega
                · omega
              · intro q' hq'
                rcases List.mem_cons.mp hq' with h | h
                · rw [h]
                  exact Or.inl (List.mem_map_of_mem _ (List.mem_cons_self _ _))
                · rcases ihr.2 q' h with hin | hge
                  · rw [List.map_append] at hin
                    rcases List.mem_append.mp hin with hl | hr
                    · exact Or.inl (List.mem_cons_of_mem _ hl)
                    · rcases List.mem_map.mp hr with ⟨q'', hq'', heq⟩
                      have := enqueueChildren_sid_ge _ _ _ _ _ q'' hq''
                      omega
                  · exact Or.inr (le_trans hfr hge)
            · have h3' : (qs.map QEntry.sid).Nodup := (List.nodup_cons.mp h3).2
              have h4' : ∀ q' ∈ qs, q'.sid ∈ visited :=
                fun q' h => h4 q' (List.mem_cons_of_mem _ h)
              have ihr := ih qs visited fresh h1 h2 h3' h4'
              simp only [findSingleLoop, hm, hd, if_false]
              constructor
              · rw [List.map_cons]
                refine List.nodup_cons.mpr ⟨?_, ihr.1⟩
                intro hmem
                rcases List.mem_map.mp hmem with ⟨q', hq', hsid⟩
                have hqlt : q.sid < fresh := h1 _ (h4 q (List.mem_cons_self _ _))
                rcases ihr.2 q' hq' with hin | hge
                · have := (List.nodup_cons.mp (by rw [List.map_cons] at h3; exact h3)).1
                  rw [hsid] at hin
                  exact this hin
                · omega
              · intro q' hq'
                rcases List.mem_cons.mp hq' with h | h
                · rw [h]
                  exact Or.inl (List.mem_map_of_mem _ (List.mem_cons_self _ _))
                · rcases ihr.2 q' h with hin | hge
                  · exact Or.inl (List.mem_cons_of_mem _ hin)
                  · exact Or.inr hge

/-- The multi-element loop returns exactly the concatenation, over the
dequeued scopes in traversal order, of the per-scope matches, each
tagged with the scope it was found in. -/
theorem findAllLoop_found (dom : Dom) (maxDepth : Nat) :
    ∀ (b : Nat) (queue : List QEntry) (visited : List Nat) (fresh : Nat),
    (findAllLoop dom maxDepth b queue visited fresh).1 =
      (findAllLoop dom maxDepth b queue visited fresh).2.flatMap
        (fun q => (frameAt dom q.idx).elems.map (fun e => (e, q))) := by
  intro b
  induction b with
  | zero => intro queue visited fresh; simp [findAllLoop]
  | succ b ih =>
      intro queue visited fresh
      match queue with
      | [] => simp [findAllLoop]
      | q :: qs =>
        by_cases hd : q.depth < maxDepth
        · simp only [findAllLoop, hd, if_true, List.flatMap_cons]
          rw [ih]
        · simp only [findAllLoop, hd, if_false, List.flatMap_cons]
          rw [ih]

/-- Every scope dequeued by the multi-element loop lies within the
depth bound. -/
theorem findAllLoop_depth (dom : Dom) (maxDepth : Nat) :
    ∀ (b : Nat) (queue : List QEntry) (visited : List Nat) (fresh : Nat),
    (∀ q ∈ queue, q.depth ≤ maxDepth) →
    ∀ q ∈ (findAllLoop dom maxDepth b queue visited fresh).2, q.depth ≤ maxDepth := by
  intro b
  induction b with
  | zero => intro queue visited fresh hq; simp [findAllLoop]
  | succ b ih =>
      intro queue visited fresh hq
      match queue with
      | [] => simp [findAllLoop]
      | q :: qs =>
        by_cases hd : q.depth < maxDepth
        · simp only [findAllLoop, hd, if_true]
          intro q' hq'
          rcases List.mem_cons.mp hq' with h | h
          · rw [h]; exact hq q (List.mem_cons_self _ _)
          · refine ih _ _ _ ?_ q' h
            intro q'' hq''
            rcases List.mem_append.mp hq'' with h' | h'
            · exact hq q'' (List.mem_cons_of_mem _ h')
            · have := enqueueChildren_depth dom.length (q.depth + 1)
                (frameAt dom q.idx).children visited fresh q'' h'
              omega
        · simp only [findAllLoop, hd, if_false]
          intro q' hq'
          rcases List.mem_cons.mp hq' with h | h
          · rw [h]; exact hq q (List.mem_cons_self _ _)
          · exact ih _ _ _ (fun q'' h' => hq q'' (List.mem_cons_of_mem _ h')) q' h

/-- The multi-element loop dequeues pairwise distinct scope
identities, exactly as the single-element loop does. -/
theorem findAllLoop_trace (dom : Dom) (maxDepth : Nat) :
    ∀ (b : Nat) (queue : List QEntry) (visited : List Nat) (fresh : Nat),
    (∀ x ∈ visited, x < fresh) → visited.Nodup →
    (queue.map QEntry.sid).Nodup → (∀ q ∈ queue, q.sid ∈ visited) →
    ((findAllLoop dom maxDepth b queue visited fresh).2.map QEntry.sid).Nodup ∧
    (∀ q ∈ (findAllLoop dom maxDepth b queue visited fresh).2,
        q.sid ∈ queue.map QEntry.sid ∨ fresh ≤ q.sid) := by
  intro b
  induction b with
  | zero => intro queue visited fresh h1 h2 h3 h4; simp [findAllLoop]
  | succ b ih =>
      intro queue visited fresh h1 h2 h3 h4
      match queue with
      | [] => simp [findAllLoop]
      | q :: qs =>
        by_cases hd : q.depth < maxDepth
        · set ch := enqueueChildren dom.length (q.depth + 1)
            (frameAt dom q.idx).children visited fresh with hch
          have h1' : ∀ x ∈ ch.2.1, x < ch.2.2 :=
            enqueueChildren_lt_fresh _ _ _ _ _ h1
          have h2' : ch.2.1.Nodup :=
            enqueueChildren_visited_nodup _ _ _ _ _ h2
          have hfr : fresh ≤ ch.2.2 := enqueueChildren_fresh_le _ _ _ _ _
          have hqsv : ∀ q' ∈ qs, q'.sid ∈ visited :=
            fun q' h => h4 q' (List.mem_cons_of_mem _ h)
          have h3' : ((qs ++ ch.1).map QEntry.sid).Nodup := by
            rw [List.map_append]
            refine List.Nodup.append ((List.nodup_cons.mp h3).2)
              (enqueueChildren_sids_nodup _ _ _ _ _) ?_
            intro x hxs hxc
            rcases List.mem_map.mp hxs with ⟨q', hq', rfl⟩
            rcases List.mem_map.mp hxc with ⟨q'', hq'', heq⟩
            have hlt : q'.sid < fresh := h1 _ (hqsv q' hq')
            have hge : fresh ≤ q''.sid := enqueueChildren_sid_ge _ _ _ _ _ q'' hq''
            omega
          have h4' : ∀ q' ∈ qs ++ ch.1, q'.sid ∈ ch.2.1 := by
            intro q' hq'
            rcases List.mem_append.mp hq' with h | h
            · exact enqueueChildren_subset _ _ _ _ _ _ (hqsv q' h)
            · exact enqueueChildren_mem_visited _ _ _ _ _ q' h
          have ihr := ih (qs ++ ch.1) ch.2.1 ch.2.2 h1' h2' h3' h4'
          simp only [findAllLoop, hd, if_true]
          constructor
          · rw [List.map_cons]
            refine List.nodup_cons.mpr ⟨?_, ihr.1⟩
            intro hmem
            rcases List.mem_map.mp hmem with ⟨q', hq', hsid⟩
            have hqlt : q.sid < fresh := h1 _ (h4 q (List.mem_cons_self _ _))
            rcases ihr.2 q' hq' with hin | hge
            · rw [List.map_append] at hin
              rcases List.mem_append.mp hin with hl | hr
              · have := (List.nodup_cons.mp (by rw [List.map_cons] at h3; exact h3)).1
                rw [hsid] at hl
                exact this hl
              · rcases List.mem_map.mp hr with ⟨q'', hq'', heq⟩
                have := enqueueChildren_sid_ge _ _ _ _ _ q'' hq''
                omega
            · omega
          · intro q' hq'
            rcases List.mem_cons.mp hq' with h | h
            · rw [h]
              exact Or.inl (List.mem_map_of_mem _ (List.mem_cons_self _ _))
            · rcases ihr.2 q' h with hin | hge
              · rw [List.map_append] at hin
                rcases List.mem_append.mp hin with hl | hr
                · exact Or.inl (List.mem_cons_of_mem _ hl)
                · rcases List.mem_map.mp hr with ⟨q'', hq'', heq⟩
                  have := enqueueChildren_sid_ge _ _ _ _ _ q'' hq''
                  omega
              · exact Or.inr (le_trans hfr hge)
        · have h3' : (qs.map QEntry.sid).Nodup := (List.nodup_cons.mp h3).2
          have h4' : ∀ q' ∈ qs, q'.sid ∈ visited :=
            fun q' h => h4 q' (List.mem_cons_of_mem _ h)
          have ihr := ih qs visited fresh h1 h2 h3' h4'
          simp only [findAllLoop, hd, if_false]
          constructor
          · rw [List.map_cons]
            refine List.nodup_cons.mpr ⟨?_, ihr.1⟩
            intro hmem
            rcases List.mem_map.mp hmem with ⟨q', hq', hsid⟩
            have hqlt : q.sid < fresh := h1 _ (h4 q (List.mem_cons_self _ _))
            rcases ihr.2 q' hq' with hin | hge
            · have := (List.nodup_cons.mp (by rw [List.map_cons] at h3; exact h3)).1
              rw [hsid] at hin
              exact this hin
            · omega
          · intro q' hq'
            rcases List.mem_cons.mp hq' with h | h
            · rw [h]
              exact Or.inl (List.mem_map_of_mem _ (List.mem_cons_self _ _))
            · rcases ihr.2 q' h with hin | hge
              · exact Or.inl (List.mem_cons_of_mem _ hin)
              · exact Or.inr hge

/-- Refinement: the single-element loop returns precisely the first
scope, in the reference breadth-first enumeration, whose scope contains
a match — the identity bookkeeping never changes the traversal. -/
theorem findSingleLoop_bfs (dom : Dom) (maxDepth : Nat) :
    ∀ (b : Nat) (queue : List QEntry) (visited : List Nat) (fresh : Nat),
    (∀ x ∈ visited, x < fresh) →
    (findSingleLoop dom maxDepth b queue visited fresh).1.map
        (fun r => (r.1, r.2.idx, r.2.depth)) =
      ((bfsScopes dom maxDepth b (queue.map (fun q => (q.idx, q.depth)))).find?
          (fun p => !(frameAt dom p.1).elems.isEmpty)).bind
        (fun p => ((frameAt dom p.1).elems.head?).map (fun e => (e, p.1, p.2))) := by
  intro b
  induction b with
  | zero => intro queue visited fresh hv; simp [findSingleLoop, bfsScopes]
  | succ b ih =>
      intro queue visited fresh hv
      match queue with
      | [] => simp [findSingleLoop, bfsScopes]
      | q :: qs =>
        cases hm : (frameAt dom q.idx).elems with
        | cons e es =>
            simp only [findSingleLoop, hm, List.map_cons, bfsScopes, List.find?_cons]
            have hp : (!(frameAt dom q.idx).elems.isEmpty) = true := by
              rw [hm]; rfl
            simp only [hm] at hp ⊢
            simp [hp, hm]
        | nil =>
            by_cases hd : q.depth < maxDepth
            · set ch := enqueueChildren dom.length (q.depth + 1)
                (frameAt dom q.idx).children visited fresh with hch
              have hv' : ∀ x ∈ ch.2.1, x < ch.2.2 :=
                enqueueChildren_lt_fresh _ _ _ _ _ hv
              have hkids : ch.1.map (fun q' => (q'.idx, q'.depth)) =
                  ((frameAt dom q.idx).children.filter (fun c => c < dom.length)).map
                    (fun c => (c, q.depth + 1)) :=
                enqueueChildren_proj _ _ _ _ _ hv
              have hqmap : ((qs ++ ch.1).map (fun q' => (q'.idx, q'.depth))) =
                  qs.map (fun q' => (q'.idx, q'.depth)) ++
                    ((frameAt dom q.idx).children.filter (fun c => c < dom.length)).map
                      (fun c => (c, q.depth + 1)) := by
                rw [List.map_append, hkids]
              simp only [findSingleLoop, hm, hd, if_true]
              rw [ih (qs ++ ch.1) ch.2.1 ch.2.2 hv', hqmap]
              simp only [bfsScopes, List.map_cons, List.find?_cons]
              have hp : (!(frameAt dom q.idx).elems.isEmpty) = false := by
                rw [hm]; rfl
              simp only [hm] at hp ⊢
              simp [hp, hd]
            · simp only [findSingleLoop, hm, hd, if_false]
              rw [ih qs visited fresh hv]
              simp only [bfsScopes, List.map_cons, List.find?_cons]
              have hp : (!(frameAt dom q.idx).elems.isEmpty) = false := by
                rw [hm]; rfl
              simp only [hm] at hp ⊢
              simp [hp, hd]

/-- In-range frame lookup. -/
theorem frameAt_of_lt (dom : Dom) (i : Nat) (h : i < dom.length) :
    frameAt dom i = dom.get ⟨i, h⟩ := by
  simp [frameAt, List.get?_eq_get h, List.getElem?_eq_getElem h, List.get_eq_getElem]

/-- Out-of-range frame lookup yields the empty scope. -/
theorem frameAt_of_ge (dom : Dom) (i : Nat) (h : ¬ i < dom.length) :
    frameAt dom i = ⟨[], []⟩ := by
  have hn : dom.get? i = none := List.get?_eq_none.mpr (Nat.le_of_not_lt h)
  simp only [frameAt, List.get?_eq_getElem?] at hn ⊢
  rw [hn]
  rfl

/-- When all element identifiers across the frame table are globally
distinct, each scope's match list is duplicate-free. -/
theorem elems_nodup_of_global (dom : Dom)
    (h : ((dom.map Frame.elems).flatten).Nodup) (i : Nat) :
    (frameAt dom i).elems.Nodup := by
  by_cases hi : i < dom.length
  · refine (List.nodup_flatten.mp h).1 _ ?_
    rw [frameAt_of_lt dom i hi]
    exact List.mem_map_of_mem _ (List.get_mem dom i hi)
  · rw [frameAt_of_ge dom i hi]
    exact List.nodup_nil

/-- When all element identifiers across the frame table are globally
distinct, distinct frames have disjoint match lists. -/
theorem elems_disjoint_of_global (dom : Dom)
    (h : ((dom.map Frame.elems).flatten).Nodup) (i j : Nat) (hij : i ≠ j) :
    List.Disjoint (frameAt dom i).elems (frameAt dom j).elems := by
  by_cases hi : i < dom.length
  · by_cases hj : j < dom.length
    · have hpw := (List.nodup_flatten.mp h).2
      have hlen : dom.length = (dom.map Frame.elems).length := (List.length_map _ _).symm
      have hget : ∀ (k : Nat) (hk : k < dom.length),
          (dom.map Frame.elems).get ⟨k, hlen ▸ hk⟩ = (frameAt dom k).elems := by
        intro k hk
        rw [frameAt_of_lt dom k hk, List.get_map]
      rcases Nat.lt_or_ge i j with hlt | hge
      · have := List.pairwise_iff_get.mp hpw ⟨i, hlen ▸ hi⟩ ⟨j, hlen ▸ hj⟩ hlt
        rw [hget i hi, hget j hj] at this
        exact this
      · have hjlt : j < i := Nat.lt_of_le_of_ne hge (Ne.symm hij)
        have := List.pairwise_iff_get.mp hpw ⟨j, hlen ▸ hj⟩ ⟨i, hlen ▸ hi⟩ hjlt
        rw [hget i hi, hget j hj] at this
        exact List.Disjoint.symm this
    · rw [frameAt_of_ge dom j hj]
      intro a _ ha
      exact absurd ha (List.not_mem_nil a)
  · rw [frameAt_of_ge dom i hi]
    intro a ha
    exact absurd ha (List.not_mem_nil a)

/-- C5: for every starting scope, selector (encoded in the frame
table), depth bound and time budget, the resolver never returns an
element found in a scope whose depth exceeds the bound, and never
dequeues or expands the same scope identity twice — cyclic embeddings
are representable since child links are arbitrary frame indices.  The
dequeue traces of both the single- and the multi-element search carry
pairwise distinct scope identities, and every identity enters the
visited set at most once (`findSingleLoop_trace`). -/
theorem resolver_depth_and_identity (dom : Dom) (start maxDepth budget : Nat) :
    (∀ (e : Nat) (q : QEntry),
        find_element_dynamically dom start maxDepth budget = some (e, q) →
        q.depth ≤ maxDepth) ∧
    ((findSingleTrace dom start maxDepth budget).map QEntry.sid).Nodup ∧
    (∀ q ∈ findAllTrace dom start maxDepth budget, q.depth ≤ maxDepth) ∧
    ((findAllTrace dom start maxDepth budget).map QEntry.sid).Nodup := by
  have hseed : ∀ q ∈ [(⟨0, start, 0⟩ : QEntry)], q.depth ≤ maxDepth := by
    intro q hq
    rw [List.mem_singleton.mp hq]
    exact Nat.zero_le _
  have h1 : ∀ x ∈ [0], x < 1 := by
    intro x hx
    rw [List.mem_singleton.mp hx]
    omega
  have h2 : ([0] : List Nat).Nodup := List.nodup_singleton 0
  have h3 : (([(⟨0, start, 0⟩ : QEntry)]).map QEntry.sid).Nodup := by
    simp
  have h4 : ∀ q ∈ [(⟨0, start, 0⟩ : QEntry)], q.sid ∈ [0] := by
    intro q hq
    rw [List.mem_singleton.mp hq]
    simp
  exact ⟨(findSingleLoop_depth dom maxDepth budget _ _ _ hseed).1,
    (findSingleLoop_trace dom maxDepth budget _ _ _ h1 h2 h3 h4).1,
    findAllLoop_depth dom maxDepth budget _ _ _ hseed,
    (findAllLoop_trace dom maxDepth budget _ _ _ h1 h2 h3 h4).1⟩

/-- Witness for C5: a concrete two-frame table in which the element is
found in the child frame at depth 1, within the bound 2. -/
theorem resolver_depth_and_identity_witness :
    find_element_dynamically [⟨[], [1]⟩, ⟨[7], []⟩] 0 2 10 = some (7, ⟨1, 1, 1⟩) ∧
    (⟨1, 1, 1⟩ : QEntry).depth ≤ 2 :=
  ⟨by decide,
   (resolver_depth_and_identity [⟨[], [1]⟩, ⟨[7], []⟩] 0 2 10).1 7 ⟨1, 1, 1⟩ (by decide)⟩

/-- C6: multi-element resolution returns the union, over every visited
scope in traversal order, of the per-scope matches, each tagged with the
scope it was found in; its length is the sum of the per-scope match
counts; and when the visited scopes are pairwise distinct frames (a tree
of scopes) whose element identifiers are globally distinct, no element
appears twice. -/
theorem find_all_union_of_scopes (dom : Dom) (start maxDepth budget : Nat) :
    find_all_elements_dynamically dom start maxDepth budget =
      (findAllTrace dom start maxDepth budget).flatMap
        (fun q => (frameAt dom q.idx).elems.map (fun e => (e, q))) ∧
    (find_all_elements_dynamically dom start maxDepth budget).length =
      ((findAllTrace dom start maxDepth budget).map
        (fun q => (frameAt dom q.idx).elems.length)).sum ∧
    (((findAllTrace dom start maxDepth budget).map QEntry.idx).Nodup →
      ((dom.map Frame.elems).flatten).Nodup →
      ((find_all_elements_dynamically dom start maxDepth budget).map Prod.fst).Nodup) := by
  have hfe : find_all_elements_dynamically dom start maxDepth budget =
      (findAllTrace dom start maxDepth budget).flatMap
        (fun q => (frameAt dom q.idx).elems.map (fun e => (e, q))) :=
    findAllLoop_found dom maxDepth budget _ _ _
  have hfst : (find_all_elements_dynamically dom start maxDepth budget).map Prod.fst =
      (findAllTrace dom start maxDepth budget).flatMap
        (fun q => (frameAt dom q.idx).elems) := by
    rw [hfe, List.map_flatMap]
    have hfun : (fun (q : QEntry) =>
        ((frameAt dom q.idx).elems.map (fun e => (e, q))).map Prod.fst) =
        fun (q : QEntry) => (frameAt dom q.idx).elems := by
      funext q
      rw [List.map_map]
      have hid : (Prod.fst ∘ fun (e : Nat) => (e, q)) = id := rfl
      rw [hid, List.map_id]
    rw [hfun]
  refine ⟨hfe, ?_, ?_⟩
  · rw [hfe, List.length_flatMap]
    refine congrArg List.sum (List.map_congr_left ?_)
    intro q _
    simp [Function.comp]
  · intro hidx hglob
    rw [hfst]
    refine List.nodup_flatMap.mpr ⟨?_, ?_⟩
    · intro q _
      exact elems_nodup_of_global dom hglob q.idx
    · have hne : (findAllTrace dom start maxDepth budget).Pairwise
          (fun a b => a.idx ≠ b.idx) := List.pairwise_map.mp hidx
      exact hne.imp (fun hab => elems_disjoint_of_global dom hglob _ _ hab)

/-- Witness for C6: a concrete two-frame tree with elements 1, 2 in
the root and 3 in the child; the result list has no duplicates. -/
theorem find_all_union_of_scopes_witness :
    ((findAllTrace [⟨[1, 2], [1]⟩, ⟨[3], []⟩] 0 2 10).map QEntry.idx).Nodup ∧
    (([⟨[1, 2], [1]⟩, ⟨[3], []⟩] : Dom).map Frame.elems).flatten.Nodup ∧
    ((find_all_elements_dynamically [⟨[1, 2], [1]⟩, ⟨[3], []⟩] 0 2 10).map Prod.fst).Nodup :=
  ⟨by decide, by decide,
   (find_all_union_of_scopes [⟨[1, 2], [1]⟩, ⟨[3], []⟩] 0 2 10).2.2 (by decide) (by decide)⟩

/-- C7: single-element resolution is deterministic in traversal order:
it is a function of the frame table alone (first conjunct), and the
scope it picks is exactly the first scope with a match in the reference
breadth-first enumeration `bfsScopes`, which checks the starting scope
first (third conjunct) and enqueues children in enumeration order. -/
theorem find_element_bfs_order (dom : Dom) (start maxDepth budget : Nat) :
    find_element_dynamically dom start maxDepth budget =
      find_element_dynamically dom start maxDepth budget ∧
    (find_element_dynamically dom start maxDepth budget).map
        (fun r => (r.1, r.2.idx, r.2.depth)) =
      ((bfsScopes dom maxDepth budget [(start, 0)]).find?
          (fun p => !(frameAt dom p.1).elems.isEmpty)).bind
        (fun p => ((frameAt dom p.1).elems.head?).map (fun e => (e, p.1, p.2))) ∧
    (∀ b, (bfsScopes dom maxDepth (b + 1) [(start, 0)]).head? = some (start, 0)) := by
  refine ⟨rfl, ?_, ?_⟩
  · have h := findSingleLoop_bfs dom maxDepth budget [⟨0, start, 0⟩] [0] 1
      (by intro x hx; rw [List.mem_singleton.mp hx]; omega)
    simpa [find_element_dynamically] using h
  · intro b
    rfl

/-! ## ActionExecutor: `execute_actions_async` and `run_playwright_automation_async`

The step executor is modelled as a pure transition function over an
explicit state (current scope, root page, scope stack).  The browser is
an external collaborator: each host-capability call is an oracle field
of `Env`, indexed by the absolute step index where the call depends on
the step (element resolution, iframe lookup, operation success) and by
its natural argument otherwise (per-element attribute reads, downloads).
An `Env` value fixes one behaviour of the browser for a whole run.

Scope identity is Python object identity: `ScopeRef.page`/`ScopeRef.frame`
values stand for `Page`/`FrameLocator` objects, and the identity guards
on pushes (playwright_handler.py lines 320 and 386) are kept verbatim.
Every raised exception in the step body is caught at the single
per-step handler (lines 684-703), which appends one error StepResult and
returns — modelled by `StepOut.next = none`.  Observable side effects
that the claims count (element resolution attempts, PDF fetches, PDF
text extractions, page scrapes) are recorded in an effect trace.

Payload fields of `StepResult` that no claim inspects (screenshot
filenames, durations) are elided; every status and every control-flow
path of the source loop is represented. -/

/-- Identity of a navigation scope: the root `Page` or a `FrameLocator`. -/
inductive ScopeRef where
  | page (pid : Nat)
  | frame (fid : Nat)
deriving Repr, DecidableEq

/-- One parsed action record (`step_data.get(...)`, playwright_handler.py
lines 282-289).  Absent keys are `none`; `wait_time_ms` is immaterial
here because timeouts live inside the oracles. -/
structure ActionStep where
  action : String := ""
  selector : Option String := none
  iframe_selector : Option String := none
  value : Option String := none
  attribute_name : Option String := none
  option_type : Option String := none
  option_value : Option String := none
deriving Repr, DecidableEq

/-- StepResult statuses appearing in execute_actions_async. -/
inductive Status where
  | success
  | error
  | skipped
  | warning
deriving Repr, DecidableEq

/-- One entry of the `results` list, with the payload fields the claims
inspect (`attr` models the source key "attribute", a Lean keyword). -/
structure StepResult where
  step : Nat
  status : Status
  action : String := ""
  selector : Option String := none
  message : Option String := none
  value : Option String := none
  attr : Option String := none
  pdf_text : Option String := none
  url_lists : Option (List (Option String)) := none
  pdf_texts : Option (List (Option String)) := none
  scraped_texts : Option (List (Option String)) := none
  attribute_list : Option (List (Option String)) := none
  text_list : Option (List (Option String)) := none
  new_page_opened : Option Bool := none
deriving Repr, DecidableEq

/-- Observable side effects of a step, in program order. -/
inductive Effect where
  | resolveSingle (step : Nat)
  | resolveAll (step : Nat)
  | fetchPdf (url : String)
  | extractPdf (bytes : Nat)
  | scrape (url : String)
deriving Repr, DecidableEq

def Effect.isFetch : Effect → Bool
  | .fetchPdf _ => true
  | _ => false

def Effect.isExtract : Effect → Bool
  | .extractPdf _ => true
  | _ => false

def Effect.isResolve : Effect → Bool
  | .resolveSingle _ => true
  | .resolveAll _ => true
  | _ => false

/-- Cross-step state: `current_target`, the id of `root_page`, and
`iframe_stack` (playwright_handler.py lines 275-278).  The stack is kept
head-first: the source appends and pops at the end of a Python list. -/
structure ExecState where
  current : ScopeRef
  root : Nat
  stack : List ScopeRef
deriving Repr, DecidableEq

/-- Oracle interface to the browser (and urljoin).  `resolveSingle`
returns the scope where `find_element_dynamically` found the element
(`none` = not found in time); `resolveAll` the scope-tagged element list
of `find_all_elements_dynamically`; `actionOk` whether the host
operation of step `i` raises; `clickNewPage` whether a click opened a
new page; `download`/`extractText` the AuxDocumentFetcher/AuxTextExtractor
boundary; `elemAttr e n` the attribute `n` of element `e`. -/
structure Env where
  infoOk : Nat → Bool
  iframeScope : Nat → Option Nat
  resolveSingle : Nat → Option ScopeRef
  resolveAll : Nat → List (Nat × ScopeRef)
  actionOk : Nat → Bool
  clickNewPage : Nat → Option Nat
  pageUrl : Nat → String
  urljoin : String → String → String
  attrValue : Nat → Option String
  elemAttr : Nat → String → Option String
  download : String → Option Nat
  extractText : Nat → String
  pageText : String → String
  textContent : Nat → Option String

/-- Outcome of one loop iteration: its StepResult, its effects, and the
state for the next step — `none` when the loop returns immediately. -/
structure StepOut where
  result : StepResult
  effects : List Effect
  next : Option ExecState
deriving Repr

/-- playwright_handler.py line 367. -/
def single_element_required_actions : List String :=
  ["click", "input", "hover", "get_inner_text", "get_text_content", "get_inner_html",
   "get_attribute", "wait_visible", "select_option", "scroll_to_element"]

/-- playwright_handler.py line 368. -/
def multiple_elements_actions : List String :=
  ["get_all_attributes", "get_all_text_contents"]

/-- playwright_handler.py line 679. -/
def known_actions : List String :=
  ["click", "input", "hover", "get_inner_text", "get_text_content", "get_inner_html",
   "get_attribute", "get_all_attributes", "get_all_text_contents", "wait_visible",
   "select_option", "screenshot", "scroll_page_to_bottom", "scroll_to_element",
   "wait_page_load", "sleep", "switch_to_iframe", "switch_to_parent_frame"]

/-- The error StepResult appended by the catch-all handler and by the
not-found path. -/
def errResult (stepNum : Nat) (action : String) (sel : Option String)
    (msg : String) : StepResult :=
  { step := stepNum, status := Status.error, action := action,
    selector := sel, message := some msg }

/-- A step that raises: appends one error StepResult and halts the run
(playwright_handler.py lines 684-703). -/
def stepError (stepNum : Nat) (action : String) (sel : Option String) (msg : String)
    (effs : List Effect) : StepOut :=
  { result := errResult stepNum action sel msg, effects := effs, next := none }

/-- The PDF filter of the `get_all_attributes`/"pdf" branch
(playwright_handler.py lines 529-540): absolute URLs ending in ".pdf",
paired with their position in the href list, in order. -/
def pdfLinkPairs (absOf : String → String) (hrefs : List (Option String)) :
    List (String × Nat) :=
  hrefs.enum.filterMap (fun p =>
    match p.2 with
    | some u =>
        let absUrl := absOf u
        if endsWithPdf absUrl then some (absUrl, p.1) else none
    | none => none)

/-- The non-PDF filter of the "content" branch (lines 569-580). -/
def nonPdfLinkPairs (absOf : String → String) (hrefs : List (Option String)) :
    List (String × Nat) :=
  hrefs.enum.filterMap (fun p =>
    match p.2 with
    | some u =>
        let absUrl := absOf u
        if endsWithPdf absUrl then none else some (absUrl, p.1)
    | none => none)

/-- `absolute_url_map[url]` (line 537): dictionary assignment in a loop,
so the last position with a given URL wins. -/
def lastIdxOf (u : String) (pairs : List (String × Nat)) : Option Nat :=
  ((pairs.filter (fun p => p.1 = u)).getLast?).map Prod.snd

/-- Rebuilding the full-length result list (lines 557-561): start from
`[None] * n` and assign each processed text at the mapped position of
its URL. -/
def rebuildByUrl (n : Nat) (pairs : List (String × Nat)) (texts : List (Option String)) :
    List (Option String) :=
  (pairs.zip texts).foldl (fun acc pt =>
      match lastIdxOf pt.1.1 pairs with
      | some j => acc.set j pt.2
      | none => acc) (List.replicate n none)

/-- A non-halting step outcome. -/
def okOut (r : StepResult) (effs : List Effect) (st : ExecState) : StepOut :=
  { result := r, effects := effs, next := some st }

/-- The common part of a success StepResult. -/
def successRes (stepNum : Nat) (action : String) (sel : Option String) : StepResult :=
  { step := stepNum, status := Status.success, action := action, selector := sel }

/-- The href post-processing of single `get_attribute` (lines 458-477):
resolve against the base URL; when the absolute URL ends in ".pdf",
download and extract, recording the download-failure marker verbatim. -/
def getAttributeHref (env : Env) (_i : Nat) (st : ExecState) (a : ActionStep)
    (stepNum : Nat) (action : String) (preEff : List Effect) (an : String)
    (v : String) : StepOut :=
  let absUrl := env.urljoin (env.pageUrl st.root) v
  if endsWithPdf absUrl then
    match env.download absUrl with
    | some b =>
        okOut { successRes stepNum action a.selector with
                attr := some an
                value := some absUrl
                pdf_text := some (env.extractText b) }
          (preEff ++ [Effect.fetchPdf absUrl, Effect.extractPdf b]) st
    | none =>
        okOut { successRes stepNum action a.selector with
                attr := some an
                value := some absUrl
                pdf_text :=
                  some "Error: PDF download failed or returned no data." }
          (preEff ++ [Effect.fetchPdf absUrl]) st
  else
    okOut { successRes stepNum action a.selector with
            attr := some an
            value := some absUrl } preEff st

/-- Dispatch of a single-target action after successful resolution
(playwright_handler.py lines 397-488 and 633-675).  `st` is the
already-promoted state; a missing required field raises (ValueError)
after resolution, exactly as in the source. -/
def execSingleAction (env : Env) (i : Nat) (st : ExecState) (a : ActionStep)
    (stepNum : Nat) (action : String) (preEff : List Effect) : StepOut :=
  if action = "click" then
    if env.actionOk i = false then
      stepError stepNum action a.selector "click failed" preEff
    else
      match env.clickNewPage i with
      | some pid =>
          okOut { successRes stepNum action a.selector with new_page_opened := some true }
            preEff { current := ScopeRef.page pid, root := pid, stack := [] }
      | none =>
          okOut { successRes stepNum action a.selector with new_page_opened := some false }
            preEff st
  else if action = "input" then
    match a.value with
    | none => stepError stepNum action a.selector "Input action requires value" preEff
    | some v =>
        if env.actionOk i then
          okOut { successRes stepNum action a.selector with value := some v } preEff st
        else stepError stepNum action a.selector "input failed" preEff
  else if action = "get_attribute" then
    match a.attribute_name with
    | none => stepError stepNum action a.selector "requires attribute_name" preEff
    | some an =>
        if env.actionOk i = false then
          stepError stepNum action a.selector "attribute read failed" preEff
        else if toLowerStr an = "href" then
          match env.attrValue i with
          | some v => getAttributeHref env i st a stepNum action preEff an v
          | none =>
              okOut { successRes stepNum action a.selector with
                      attr := some an
                      value := none } preEff st
        else
          okOut { successRes stepNum action a.selector with
                  attr := some an
                  value := env.attrValue i } preEff st
  else if action = "select_option" then
    if (a.option_type = some "value" ∨ a.option_type = some "index" ∨
        a.option_type = some "label") ∧ a.option_value ≠ none then
      if env.actionOk i then
        okOut { successRes stepNum action a.selector with value := a.option_value }
          preEff st
      else stepError stepNum action a.selector "select failed" preEff
    else stepError stepNum action a.selector "Invalid option_type or option_value" preEff
  else
    if env.actionOk i then
      okOut (successRes stepNum action a.selector) preEff st
    else stepError stepNum action a.selector "action failed" preEff

/-- Body of `get_all_attributes` once `attribute_name` is present
(lines 485-611): no-op success when nothing was found; otherwise one of
the four attribute branches.  Note the "href" branch only builds the
absolute-URL list — the PDF pipeline lives in the "pdf" branch. -/
def getAllAttributesBody (env : Env) (st : ExecState) (a : ActionStep)
    (stepNum : Nat) (action : String) (found : List (Nat × ScopeRef))
    (preEff : List Effect) (an : String) : StepOut :=
  if found.isEmpty then
    okOut (successRes stepNum action a.selector) preEff st
  else
    let base := env.pageUrl st.root
    let hrefs := found.map (fun p => env.elemAttr p.1 "href")
    if toLowerStr an = "href" then
      okOut { successRes stepNum action a.selector with
              attr := some "href"
              url_lists := some (hrefs.map (fun h => h.map (env.urljoin base))) }
        preEff st
    else if toLowerStr an = "pdf" then
      let pairs := pdfLinkPairs (env.urljoin base) hrefs
      let texts := pairs.map (fun p => (env.download p.1).map env.extractText)
      let rebuilt := rebuildByUrl hrefs.length pairs texts
      okOut { successRes stepNum action a.selector with
              pdf_texts :=
                if rebuilt.all (fun t => t = none) then none else some rebuilt }
        (preEff ++ pairs.map (fun p => Effect.fetchPdf p.1)
          ++ pairs.filterMap (fun p => (env.download p.1).map Effect.extractPdf)) st
    else if toLowerStr an = "content" then
      let pairs := nonPdfLinkPairs (env.urljoin base) hrefs
      let texts := pairs.map (fun p => some (env.pageText p.1))
      let rebuilt := rebuildByUrl hrefs.length pairs texts
      okOut { successRes stepNum action a.selector with
              scraped_texts :=
                if rebuilt.all (fun t => t = none) then none else some rebuilt }
        (preEff ++ pairs.map (fun p => Effect.scrape p.1)) st
    else
      okOut { successRes stepNum action a.selector with
              attr := some an
              attribute_list := some (found.map (fun p => env.elemAttr p.1 an)) }
        preEff st

/-- Dispatch of the multi-target actions (`get_all_attributes`,
`get_all_text_contents`, lines 481-631). -/
def execMultiAction (env : Env) (_i : Nat) (st : ExecState) (a : ActionStep)
    (stepNum : Nat) (action : String) (found : List (Nat × ScopeRef))
    (preEff : List Effect) : StepOut :=
  if action = "get_all_attributes" then
    match a.attribute_name with
    | none => stepError stepNum action a.selector "requires attribute_name" preEff
    | some an => getAllAttributesBody env st a stepNum action found preEff an
  else
    okOut { successRes stepNum action a.selector with
            text_list := some (found.map (fun p => env.textContent p.1)) } preEff st

/-- Element preparation and resolution (lines 364-392) followed by
dispatch: selector check, single- or multi-element resolution,
found-in-descendant promotion with the identity-guarded push, the
full-page screenshot path, and the unknown-action skip (lines 677-682;
the final guard is vacuous for known actions, which are all consumed by
earlier branches). -/
def execElementPhase (env : Env) (i : Nat) (st : ExecState) (a : ActionStep)
    (stepNum : Nat) (action : String) : StepOut :=
  if ((action ∈ single_element_required_actions ∨ action ∈ multiple_elements_actions ∨
      (action = "screenshot" ∧ a.selector ≠ none)) ∧ a.selector = none) then
    stepError stepNum action a.selector "requires a selector" []
  else if action ∈ single_element_required_actions ∨
      (action = "screenshot" ∧ a.selector ≠ none) then
    match env.resolveSingle i with
    | none =>
        stepError stepNum action a.selector "element not found within search depth"
          [Effect.resolveSingle i]
    | some sc =>
        let st1 := if sc = st.current then st
          else { current := sc, root := st.root,
                 stack := if st.current ∈ st.stack then st.stack
                   else st.current :: st.stack }
        execSingleAction env i st1 a stepNum action [Effect.resolveSingle i]
  else if action ∈ multiple_elements_actions then
    execMultiAction env i st a stepNum action (env.resolveAll i) [Effect.resolveAll i]
  else if action = "screenshot" then
    if env.actionOk i then
      okOut (successRes stepNum action none) [] st
    else stepError stepNum action a.selector "screenshot failed" []
  else
    okOut { step := stepNum
            status := Status.skipped
            action := action
            message := some "Undefined action" } [] st

/-- One iteration of the step loop (playwright_handler.py lines
280-703): target-info fetch, scope switches, page-wide actions, then
the element phase. -/
def execStep (env : Env) (i : Nat) (st : ExecState) (a : ActionStep) : StepOut :=
  let stepNum := i + 1
  let action := toLowerStr a.action
  if env.infoOk i = false then
    stepError stepNum action a.selector "Failed to get target info" []
  else if action = "switch_to_iframe" then
    match a.iframe_selector with
    | none => stepError stepNum action a.selector "requires iframe_selector" []
    | some sel =>
        match env.iframeScope i with
        | none => stepError stepNum action a.selector "iframe not found or timed out" []
        | some fid =>
            okOut (successRes stepNum action (some sel)) []
              { current := ScopeRef.frame fid, root := st.root,
                stack := if st.current ∈ st.stack then st.stack
                  else st.current :: st.stack }
  else if action = "switch_to_parent_frame" then
    match st.stack with
    | [] =>
        okOut { step := stepNum
                status := Status.warning
                action := action
                message := some "Already at top-level or stack empty." } []
          (match st.current with
           | ScopeRef.frame _ =>
               { current := ScopeRef.page st.root, root := st.root, stack := [] }
           | ScopeRef.page _ => st)
    | top :: rest =>
        okOut (successRes stepNum action none) []
          { current := top, root := st.root, stack := rest }
  else if action = "wait_page_load" ∨ action = "sleep" ∨
      action = "scroll_page_to_bottom" then
    if env.actionOk i then
      okOut (successRes stepNum action none) [] st
    else stepError stepNum action a.selector "page-wide action failed" []
  else
    execElementPhase env i st a stepNum action

/-- A whole run: the returned flag and results, plus the effect trace
and the sequence of entry states (with the final state appended when the
loop completes), used to state the claims. -/
structure RunOut where
  ok : Bool
  results : List StepResult
  effects : List Effect
  states : List ExecState
deriving Repr

/-- The step loop from a given step index and state. -/
def runFrom (env : Env) : Nat → ExecState → List ActionStep → RunOut
  | _, st, [] => { ok := true, results := [], effects := [], states := [st] }
  | i, st, a :: rest =>
      let o := execStep env i st a
      match o.next with
      | none =>
          { ok := false, results := [o.result], effects := o.effects, states := [st] }
      | some st' =>
          let r := runFrom env (i + 1) st' rest
          { ok := r.ok, results := o.result :: r.results,
            effects := o.effects ++ r.effects, states := st :: r.states }

/-- Initial state: the freshly navigated page, empty stack. -/
def initState : ExecState := { current := ScopeRef.page 0, root := 0, stack := [] }

/-- `execute_actions_async` (playwright_handler.py line 272). -/
def execute_actions_async (env : Env) (acts : List ActionStep) : RunOut :=
  runFrom env 0 initState acts

/-- The synthesized "Overall" error record (lines 763-766). -/
def overallErrorResult : StepResult :=
  { step := 0, status := Status.error, action := "Overall",
    message := some "Playwright setup or initial navigation failed" }

/-- `run_playwright_automation_async` (lines 708-782): on a setup or
navigation failure before the loop runs, the result list is empty and a
single overall error record is synthesized; otherwise the executor
outcome is returned unchanged.  Teardown has no effect on the returned
pair. -/
def run_playwright_automation_async (env : Env) (setupOk : Bool)
    (acts : List ActionStep) : Bool × List StepResult :=
  if setupOk then
    let r := execute_actions_async env acts
    (r.ok, r.results)
  else
    (false, [overallErrorResult])

/-- The href post-processing always succeeds and keeps the state. -/
theorem getAttributeHref_ok (env : Env) (i : Nat) (st : ExecState) (a : ActionStep)
    (stepNum : Nat) (action : String) (preEff : List Effect) (an v : String) :
    (getAttributeHref env i st a stepNum action preEff an v).result.status =
      Status.success ∧
    (getAttributeHref env i st a stepNum action preEff an v).next = some st := by
  unfold getAttributeHref
  by_cases hp : endsWithPdf (env.urljoin (env.pageUrl st.root) v) = true
  · rw [if_pos hp]
    cases hd : env.download (env.urljoin (env.pageUrl st.root) v) with
    | none => simp [okOut, successRes]
    | some b => simp [okOut, successRes]
  · rw [if_neg hp]
    simp [okOut, successRes]

/-- Every branch of the get_all_attributes body succeeds and keeps the
state. -/
theorem getAllAttributesBody_ok (env : Env) (st : ExecState) (a : ActionStep)
    (stepNum : Nat) (action : String) (found : List (Nat × ScopeRef))
    (preEff : List Effect) (an : String) :
    (getAllAttributesBody env st a stepNum action found preEff an).result.status =
      Status.success ∧
    (getAllAttributesBody env st a stepNum action found preEff an).next = some st := by
  unfold getAllAttributesBody
  by_cases h0 : found.isEmpty = true
  · rw [if_pos h0]
    simp [okOut, successRes]
  · rw [if_neg h0]
    by_cases h1 : toLowerStr an = "href"
    · rw [if_pos h1]
      simp [okOut, successRes]
    · rw [if_neg h1]
      by_cases h2 : toLowerStr an = "pdf"
      · rw [if_pos h2]
        simp [okOut, successRes]
      · rw [if_neg h2]
        by_cases h3 : toLowerStr an = "content"
        · rw [if_pos h3]
          simp [okOut, successRes]
        · rw [if_neg h3]
          simp [okOut, successRes]

/-- A single-target action halts the loop exactly when its StepResult
is an error. -/
theorem execSingleAction_halt_iff (env : Env) (i : Nat) (st : ExecState) (a : ActionStep)
    (stepNum : Nat) (action : String) (preEff : List Effect) :
    ((execSingleAction env i st a stepNum action preEff).next = none) ↔
    ((execSingleAction env i st a stepNum action preEff).result.status = Status.error) := by
  unfold execSingleAction
  by_cases h1 : action = "click"
  · cases hok : env.actionOk i with
    | false => simp [h1, hok, stepError, errResult]
    | true => cases hnp : env.clickNewPage i <;> simp [h1, hok, hnp, okOut, successRes]
  · by_cases h2 : action = "input"
    · cases hv : a.value with
      | none => simp [h1, h2, hv, stepError, errResult]
      | some v =>
          cases hok : env.actionOk i <;>
            simp [h1, h2, hv, hok, stepError, okOut, errResult, successRes]
    · by_cases h3 : action = "get_attribute"
      · subst h3
        cases han : a.attribute_name with
        | none => simp [h1, h2, han, stepError, errResult]
        | some an =>
            cases hok : env.actionOk i with
            | false => simp [h1, h2, han, hok, stepError, errResult]
            | true =>
                by_cases hh : toLowerStr an = "href"
                · cases hav : env.attrValue i with
                  | some v =>
                      have hga := getAttributeHref_ok env i st a stepNum
                        "get_attribute" preEff an v
                      simp [h1, h2, han, hok, hh, hav, hga.1, hga.2]
                  | none => simp [h1, h2, han, hok, hh, hav, okOut, successRes]
                · simp [h1, h2, han, hok, hh, okOut, successRes]
      · by_cases h4 : action = "select_option"
        · by_cases hopt : ((a.option_type = some "value" ∨ a.option_type = some "index" ∨
              a.option_type = some "label") ∧ a.option_value ≠ none)
          · cases hok : env.actionOk i <;>
              simp [h1, h2, h3, h4, hopt, hok, stepError, okOut, errResult, successRes]
          · simp [h1, h2, h3, h4, hopt, stepError, errResult]
        · cases hok : env.actionOk i <;>
            simp [h1, h2, h3, h4, hok, stepError, okOut, errResult, successRes]

/-- A multi-target action halts the loop exactly when its StepResult
is an error. -/
theorem execMultiAction_halt_iff (env : Env) (i : Nat) (st : ExecState) (a : ActionStep)
    (stepNum : Nat) (action : String) (found : List (Nat × ScopeRef))
    (preEff : List Effect) :
    ((execMultiAction env i st a stepNum action found preEff).next = none) ↔
    ((execMultiAction env i st a stepNum action found preEff).result.status =
      Status.error) := by
  unfold execMultiAction
  by_cases h1 : action = "get_all_attributes"
  · subst h1
    cases han : a.attribute_name with
    | none => simp [han, stepError, errResult]
    | some an =>
        have hga := getAllAttributesBody_ok env st a stepNum
          "get_all_attributes" found preEff an
        simp [han, hga.1, hga.2]
  · simp [h1, okOut, successRes]

/-- The element phase halts the loop exactly when its StepResult is an
error. -/
theorem execElementPhase_halt_iff (env : Env) (i : Nat) (st : ExecState) (a : ActionStep)
    (stepNum : Nat) (action : String) :
    ((execElementPhase env i st a stepNum action).next = none) ↔
    ((execElementPhase env i st a stepNum action).result.status = Status.error) := by
  unfold execElementPhase
  by_cases h1 : ((action ∈ single_element_required_actions ∨
      action ∈ multiple_elements_actions ∨
      (action = "screenshot" ∧ a.selector ≠ none)) ∧ a.selector = none)
  · obtain ⟨h1a, h1b⟩ := h1
    rcases h1a with ha | ha | hsn
    · simp [ha, h1b, stepError, errResult]
    · simp [ha, h1b, stepError, errResult]
    · exact absurd h1b hsn.2
  · by_cases h2 : (action ∈ single_element_required_actions ∨
        (action = "screenshot" ∧ a.selector ≠ none))
    · cases hres : env.resolveSingle i with
      | none => simp [h1, h2, hres, stepError, errResult]
      | some sc =>
          have hsa := execSingleAction_halt_iff env i
            (if sc = st.current then st
             else { current := sc, root := st.root,
                    stack := if st.current ∈ st.stack then st.stack
                      else st.current :: st.stack })
            a stepNum action [Effect.resolveSingle i]
          simpa [h1, h2, hres] using hsa
    · have h2a : action ∉ single_element_required_actions := fun h => h2 (Or.inl h)
      have h2b : ¬(action = "screenshot" ∧ a.selector ≠ none) := fun h => h2 (Or.inr h)
      by_cases h3 : action ∈ multiple_elements_actions
      · have hsel : ¬ a.selector = none := fun hs => h1 ⟨Or.inr (Or.inl h3), hs⟩
        have hss : ¬ action = "screenshot" := by
          intro hEq
          rw [hEq] at h3
          exact absurd h3 (by decide)
        have hma := execMultiAction_halt_iff env i st a stepNum action
          (env.resolveAll i) [Effect.resolveAll i]
        simpa [h2a, h2b, h3, hsel, hss] using hma
      · by_cases h4 : action = "screenshot"
        · subst h4
          have hsel : a.selector = none := by
            by_cases hs : a.selector = none
            · exact hs
            · exact absurd ⟨rfl, hs⟩ h2b
          cases hok : env.actionOk i <;>
            simp [h2a, h3, hsel, hok, stepError, okOut, errResult, successRes]
        · simp [h2a, h2b, h3, h4, okOut]

/-- A step halts the loop exactly when its StepResult is an error:
every error append in the source is immediately followed by `return`,
and every other path appends a non-error result and continues. -/
theorem execStep_halt_iff (env : Env) (i : Nat) (st : ExecState) (a : ActionStep) :
    ((execStep env i st a).next = none) ↔
    ((execStep env i st a).result.status = Status.error) := by
  unfold execStep
  cases h0 : env.infoOk i with
  | false => simp [h0, stepError, errResult]
  | true =>
      by_cases h1 : toLowerStr a.action = "switch_to_iframe"
      · cases hif : a.iframe_selector with
        | none => simp [h0, h1, hif, stepError, errResult]
        | some sel =>
            cases hsc : env.iframeScope i with
            | none => simp [h0, h1, hif, hsc, stepError, errResult]
            | some fid => simp [h0, h1, hif, hsc, okOut, successRes]
      · by_cases h2 : toLowerStr a.action = "switch_to_parent_frame"
        · cases hstk : st.stack with
          | nil => simp [h0, h1, h2, hstk, okOut]
          | cons top rest => simp [h0, h1, h2, hstk, okOut, successRes]
        · by_cases h3 : (toLowerStr a.action = "wait_page_load" ∨
              toLowerStr a.action = "sleep" ∨
              toLowerStr a.action = "scroll_page_to_bottom")
          · cases hok : env.actionOk i <;>
              simp [h0, h1, h2, h3, hok, stepError, okOut, errResult, successRes]
          · have hep := execElementPhase_halt_iff env i st a (i + 1) (toLowerStr a.action)
            simpa [h0, h1, h2, h3] using hep

/-- The loop returns `False` exactly when some appended StepResult is
an error. -/
theorem runFrom_ok_iff (env : Env) :
    ∀ (acts : List ActionStep) (i : Nat) (st : ExecState),
    ((runFrom env i st acts).ok = false ↔
      ∃ r ∈ (runFrom env i st acts).results, r.status = Status.error) := by
  intro acts
  induction acts with
  | nil => intro i st; simp [runFrom]
  | cons a rest ih =>
      intro i st
      cases hnext : (execStep env i st a).next with
      | none =>
          have herr := (execStep_halt_iff env i st a).mp hnext
          simp only [runFrom, hnext]
          constructor
          · intro _
            exact ⟨(execStep env i st a).result, by simp, herr⟩
          · intro _
            trivial
      | some st' =>
          have hne : ¬ (execStep env i st a).result.status = Status.error := by
            intro hc
            have := (execStep_halt_iff env i st a).mpr hc
            rw [hnext] at this
            cases this
          simp only [runFrom, hnext]
          constructor
          · intro hok
            rcases (ih (i + 1) st').mp hok with ⟨r, hr, hrs⟩
            exact ⟨r, List.mem_cons_of_mem _ hr, hrs⟩
          · intro hex
            rcases hex with ⟨r, hr, hrs⟩
            rcases List.mem_cons.mp hr with h | h
            · rw [h] at hrs
              exact absurd hrs hne
            · exact (ih (i + 1) st').mpr ⟨r, h, hrs⟩

/-- Reachability invariant: with an empty stack the current scope is
the root page, and the bottom of a nonempty stack is the root page. -/
def StateInv (s : ExecState) : Prop :=
  (s.stack = [] → s.current = ScopeRef.page s.root) ∧
  (∀ b, s.stack.getLast? = some b → b = ScopeRef.page s.root)

/-- A continuing single-target action either keeps the state or (via a
click that opened a new page) resets to a fresh root with empty stack. -/
theorem execSingleAction_next_cases (env : Env) (i : Nat) (st : ExecState)
    (a : ActionStep) (stepNum : Nat) (action : String) (preEff : List Effect)
    (st' : ExecState)
    (h : (execSingleAction env i st a stepNum action preEff).next = some st') :
    st' = st ∨
    (∃ pid, st' = { current := ScopeRef.page pid, root := pid, stack := [] }) := by
  unfold execSingleAction at h
  by_cases h1 : action = "click"
  · cases hok : env.actionOk i with
    | false => simp [h1, hok, stepError] at h
    | true =>
        cases hnp : env.clickNewPage i with
        | none =>
            simp [h1, hok, hnp, okOut] at h
            exact Or.inl h.symm
        | some pid =>
            simp [h1, hok, hnp, okOut] at h
            exact Or.inr ⟨pid, h.symm⟩
  · by_cases h2 : action = "input"
    · cases hv : a.value with
      | none => simp [h1, h2, hv, stepError] at h
      | some v =>
          cases hok : env.actionOk i with
          | false => simp [h1, h2, hv, hok, stepError] at h
          | true =>
              simp [h1, h2, hv, hok, okOut] at h
              exact Or.inl h.symm
    · by_cases h3 : action = "get_attribute"
      · subst h3
        cases han : a.attribute_name with
        | none => simp [h1, h2, han, stepError] at h
        | some an =>
            cases hok : env.actionOk i with
            | false => simp [h1, h2, han, hok, stepError] at h
            | true =>
                by_cases hh : toLowerStr an = "href"
                · cases hav : env.attrValue i with
                  | some v =>
                      have hga := getAttributeHref_ok env i st a stepNum
                        "get_attribute" preEff an v
                      simp [h1, h2, han, hok, hh, hav, hga.2] at h
                      exact Or.inl h.symm
                  | none =>
                      simp [h1, h2, han, hok, hh, hav, okOut] at h
                      exact Or.inl h.symm
                · simp [h1, h2, han, hok, hh, okOut] at h
                  exact Or.inl h.symm
      · by_cases h4 : action = "select_option"
        · by_cases hopt : ((a.option_type = some "value" ∨ a.option_type = some "index" ∨
              a.option_type = some "label") ∧ a.option_value ≠ none)
          · cases hok : env.actionOk i with
            | false => simp [h1, h2, h3, h4, hopt, hok, stepError] at h
            | true =>
                simp [h1, h2, h3, h4, hopt, hok, okOut] at h
                exact Or.inl h.symm
          · simp [h1, h2, h3, h4, hopt, stepError] at h
        · cases hok : env.actionOk i with
          | false => simp [h1, h2, h3, h4, hok, stepError] at h
          | true =>
              simp [h1, h2, h3, h4, hok, okOut] at h
              exact Or.inl h.symm

/-- Multi-target actions never change the scope state. -/
theorem execMultiAction_next_cases (env : Env) (i : Nat) (st : ExecState)
    (a : ActionStep) (stepNum : Nat) (action : String) (found : List (Nat × ScopeRef))
    (preEff : List Effect) (st' : ExecState)
    (h : (execMultiAction env i st a stepNum action found preEff).next = some st') :
    st' = st := by
  unfold execMultiAction at h
  by_cases h1 : action = "get_all_attributes"
  · subst h1
    cases han : a.attribute_name with
    | none => simp [han, stepError] at h
    | some an =>
        have hga := getAllAttributesBody_ok env st a stepNum
          "get_all_attributes" found preEff an
        simp [han, hga.2] at h
        exact h.symm
  · simp [h1, okOut] at h
    exact h.symm

/-- State transitions of the element phase: unchanged, promotion with
identity-guarded push, or new-page reset. -/
theorem execElementPhase_next_cases (env : Env) (i : Nat) (st : ExecState)
    (a : ActionStep) (stepNum : Nat) (action : String) (st' : ExecState)
    (h : (execElementPhase env i st a stepNum action).next = some st') :
    st' = st ∨
    (∃ sc, st' = { current := sc
                   root := st.root
                   stack := if st.current ∈ st.stack then st.stack
                     else st.current :: st.stack }) ∨
    (∃ pid, st' = { current := ScopeRef.page pid, root := pid, stack := [] }) := by
  unfold execElementPhase at h
  by_cases h1 : ((action ∈ single_element_required_actions ∨
      action ∈ multiple_elements_actions ∨
      (action = "screenshot" ∧ a.selector ≠ none)) ∧ a.selector = none)
  · rw [if_pos h1] at h
    simp [stepError] at h
  · rw [if_neg h1] at h
    by_cases h2 : (action ∈ single_element_required_actions ∨
        (action = "screenshot" ∧ a.selector ≠ none))
    · rw [if_pos h2] at h
      cases hres : env.resolveSingle i with
      | none =>
          rw [hres] at h
          simp [stepError] at h
      | some sc =>
          rw [hres] at h
          rcases execSingleAction_next_cases env i _ a stepNum action
            [Effect.resolveSingle i] st' h with heq | ⟨pid, heq⟩
          · by_cases hsc : sc = st.current
            · rw [heq, if_pos hsc]
              exact Or.inl rfl
            · rw [heq, if_neg hsc]
              exact Or.inr (Or.inl ⟨sc, rfl⟩)
          · exact Or.inr (Or.inr ⟨pid, heq⟩)
    · rw [if_neg h2] at h
      by_cases h3 : action ∈ multiple_elements_actions
      · rw [if_pos h3] at h
        exact Or.inl (execMultiAction_next_cases env i st a stepNum action
          (env.resolveAll i) [Effect.resolveAll i] st' h)
      · rw [if_neg h3] at h
        by_cases h4 : action = "screenshot"
        · rw [if_pos h4] at h
          cases hok : env.actionOk i with
          | false => simp [hok, stepError] at h
          | true =>
              simp [hok, okOut] at h
              exact Or.inl h.symm
        · rw [if_neg h4] at h
          simp [okOut] at h
          exact Or.inl h.symm

/-- All state transitions of one step: unchanged; guarded push (iframe
switch or promotion); new-page reset; parent pop; or empty-stack parent
reset to the root page. -/
theorem execStep_next_cases (env : Env) (i : Nat) (st : ExecState) (a : ActionStep)
    (st' : ExecState) (h : (execStep env i st a).next = some st') :
    st' = st ∨
    (∃ sc, st' = { current := sc
                   root := st.root
                   stack := if st.current ∈ st.stack then st.stack
                     else st.current :: st.stack }) ∨
    (∃ pid, st' = { current := ScopeRef.page pid, root := pid, stack := [] }) ∨
    (∃ top rest, st.stack = top :: rest ∧
      st' = { current := top, root := st.root, stack := rest }) ∨
    (st.stack = [] ∧
      st' = { current := ScopeRef.page st.root, root := st.root, stack := [] }) := by
  unfold execStep at h
  cases h0 : env.infoOk i with
  | false => simp [h0, stepError] at h
  | true =>
      rw [if_neg (by simp [h0])] at h
      by_cases h1 : toLowerStr a.action = "switch_to_iframe"
      · rw [if_pos h1] at h
        cases hif : a.iframe_selector with
        | none =>
            rw [hif] at h
            simp [stepError] at h
        | some sel =>
            rw [hif] at h
            cases hsc : env.iframeScope i with
            | none =>
                rw [hsc] at h
                simp [stepError] at h
            | some fid =>
                rw [hsc] at h
                simp [okOut] at h
                exact Or.inr (Or.inl ⟨ScopeRef.frame fid, h.symm⟩)
      · rw [if_neg h1] at h
        by_cases h2 : toLowerStr a.action = "switch_to_parent_frame"
        · rw [if_pos h2] at h
          cases hstk : st.stack with
          | nil =>
              rw [hstk] at h
              simp [okOut] at h
              cases hcur : st.current with
              | frame fid =>
                  rw [hcur] at h
                  exact Or.inr (Or.inr (Or.inr (Or.inr ⟨rfl, h.symm⟩)))
              | page pid =>
                  rw [hcur] at h
                  exact Or.inl h.symm
          | cons top rest =>
              rw [hstk] at h
              simp [okOut] at h
              exact Or.inr (Or.inr (Or.inr (Or.inl ⟨top, rest, rfl, h.symm⟩)))
        · rw [if_neg h2] at h
          by_cases h3 : (toLowerStr a.action = "wait_page_load" ∨
              toLowerStr a.action = "sleep" ∨
              toLowerStr a.action = "scroll_page_to_bottom")
          · rw [if_pos h3] at h
            cases hok : env.actionOk i with
            | false => simp [hok, stepError] at h
            | true =>
                simp [hok, okOut] at h
                exact Or.inl h.symm
          · rw [if_neg h3] at h
            rcases execElementPhase_next_cases env i st a (i + 1)
              (toLowerStr a.action) st' h with hc | hc | hc
            · exact Or.inl hc
            · exact Or.inr (Or.inl hc)
            · exact Or.inr (Or.inr (Or.inl hc))

/-- Every transition preserves pairwise distinctness of the stack:
pushes are guarded by the identity-membership check. -/
theorem execStep_preserves_stack_nodup (env : Env) (i : Nat) (st : ExecState)
    (a : ActionStep) (st' : ExecState) (hnd : st.stack.Nodup)
    (h : (execStep env i st a).next = some st') : st'.stack.Nodup := by
  rcases execStep_next_cases env i st a st' h with
    heq | ⟨sc, heq⟩ | ⟨pid, heq⟩ | ⟨top, rest, hstk, heq⟩ | ⟨hstk, heq⟩
  · rw [heq]; exact hnd
  · rw [heq]
    by_cases hmem : st.current ∈ st.stack
    · simpa [hmem] using hnd
    · simpa [hmem] using List.nodup_cons.mpr ⟨hmem, hnd⟩
  · rw [heq]; exact List.nodup_nil
  · rw [heq]
    rw [hstk] at hnd
    exact (List.nodup_cons.mp hnd).2
  · rw [heq]; exact List.nodup_nil

/-- Every transition preserves the reachability invariant. -/
theorem execStep_preserves_inv (env : Env) (i : Nat) (st : ExecState)
    (a : ActionStep) (st' : ExecState) (hinv : StateInv st)
    (h : (execStep env i st a).next = some st') : StateInv st' := by
  rcases execStep_next_cases env i st a st' h with
    heq | ⟨sc, heq⟩ | ⟨pid, heq⟩ | ⟨top, rest, hstk, heq⟩ | ⟨hstk, heq⟩
  · rw [heq]; exact hinv
  · rw [heq]
    by_cases hmem : st.current ∈ st.stack
    · simp only [hmem, if_true]
      refine ⟨?_, ?_⟩
      · intro hemp
        rw [hemp] at hmem
        exact absurd hmem (List.not_mem_nil _)
      · exact hinv.2
    · simp only [hmem, if_false]
      refine ⟨?_, ?_⟩
      · intro hemp
        exact absurd hemp (List.cons_ne_nil _ _)
      · intro b hb
        cases hse : st.stack with
        | nil =>
            rw [hse, List.getLast?_singleton] at hb
            rw [Option.some.injEq] at hb
            rw [← hb]
            exact hinv.1 hse
        | cons x xs =>
            rw [hse] at hb
            rw [List.getLast?_cons_cons] at hb
            apply hinv.2
            rw [hse]
            exact hb
  · rw [heq]
    exact ⟨fun _ => rfl, fun b hb => by simp at hb⟩
  · rw [heq]
    refine ⟨?_, ?_⟩
    · intro hemp
      have hre : rest = [] := hemp
      exact hinv.2 top (by rw [hstk, hre]; rfl)
    · intro b hb
      cases hre : rest with
      | nil =>
          rw [hre] at hb
          simp at hb
      | cons y ys =>
          apply hinv.2
          rw [hstk, hre]
          rw [hre] at hb
          rw [List.getLast?_cons_cons]
          exact hb
  · rw [heq]
    exact ⟨fun _ => rfl, fun b hb => by simp at hb⟩

/-- Any property preserved by `execStep` holds at every state of the
run trace. -/
theorem runFrom_states_pred (env : Env) (P : ExecState → Prop)
    (hstep : ∀ (i : Nat) (st : ExecState) (a : ActionStep) (st' : ExecState),
      P st → (execStep env i st a).next = some st' → P st') :
    ∀ (acts : List ActionStep) (i : Nat) (st : ExecState),
    P st → ∀ s ∈ (runFrom env i st acts).states, P s := by
  intro acts
  induction acts with
  | nil =>
      intro i st hP s hs
      simp only [runFrom] at hs
      rw [List.mem_singleton.mp hs]
      exact hP
  | cons a rest ih =>
      intro i st hP s hs
      cases hnext : (execStep env i st a).next with
      | none =>
          simp only [runFrom, hnext] at hs
          rw [List.mem_singleton.mp hs]
          exact hP
      | some st' =>
          simp only [runFrom, hnext] at hs
          rcases List.mem_cons.mp hs with hh | hh
          · rw [hh]; exact hP
          · exact ih (i + 1) st' (hstep i st a st' hP hnext) s hh

/-- The first trace state is the entry state. -/
theorem runFrom_states_head (env : Env) (acts : List ActionStep) (i : Nat)
    (st : ExecState) : (runFrom env i st acts).states.get? 0 = some st := by
  cases acts with
  | nil => simp [runFrom]
  | cons a rest =>
      cases hnext : (execStep env i st a).next with
      | none => simp [runFrom, hnext]
      | some st' => simp [runFrom, hnext]

/-- Trace decomposition: the j-th result is produced by `execStep` at
the j-th trace state, and a continuing step's next state is the next
trace state. -/
theorem runFrom_decomp (env : Env) :
    ∀ (acts : List ActionStep) (i : Nat) (st : ExecState) (j : Nat)
      (s : ExecState) (a : ActionStep),
    (runFrom env i st acts).states.get? j = some s →
    acts.get? j = some a →
    ((runFrom env i st acts).results.get? j = some (execStep env (i + j) s a).result ∧
     (∀ st', (execStep env (i + j) s a).next = some st' →
        (runFrom env i st acts).states.get? (j + 1) = some st')) := by
  intro acts
  induction acts with
  | nil =>
      intro i st j s a _ hget
      simp at hget
  | cons a0 rest ih =>
      intro i st j s a hstate hget
      have hs0 : (runFrom env i st (a0 :: rest)).states.get? 0 = some st :=
        runFrom_states_head env (a0 :: rest) i st
      cases hnext : (execStep env i st a0).next with
      | none =>
          cases j with
          | zero =>
              have hs : st = s := Option.some.inj (hs0.symm.trans hstate)
              subst hs
              have ha : a0 = a := Option.some.inj hget
              subst ha
              refine ⟨?_, ?_⟩
              · simp [runFrom, hnext, Nat.add_zero]
              · intro st' hc
                rw [Nat.add_zero, hnext] at hc
                cases hc
          | succ j' =>
              simp only [runFrom, hnext] at hstate
              simp only [List.get?] at hstate
              cases hstate
      | some st' =>
          cases j with
          | zero =>
              have hs : st = s := Option.some.inj (hs0.symm.trans hstate)
              subst hs
              have ha : a0 = a := Option.some.inj hget
              subst ha
              refine ⟨?_, ?_⟩
              · simp [runFrom, hnext, Nat.add_zero]
              · intro st'' hc
                rw [Nat.add_zero, hnext] at hc
                have hc' : st' = st'' := Option.some.inj hc
                subst hc'
                simp only [runFrom, hnext]
                simp only [List.get?]
                exact runFrom_states_head env rest (i + 1) st'
          | succ j' =>
              simp only [runFrom, hnext] at hstate ⊢
              simp only [List.get?] at hstate ⊢
              have harith : i + (j' + 1) = (i + 1) + j' := by omega
              rw [harith]
              exact ih (i + 1) st' j' s a hstate hget

/-- C1: for every run, the returned `overall_success` flag is false if
and only if some StepResult in the returned list has status "error";
"warning" and "skipped" results never flip it.  Stated for
`run_playwright_automation_async`, covering both the setup-failure path
(which synthesizes a single error record) and the executor
(`runFrom_ok_iff`). -/
theorem overall_success_iff_error (env : Env) (setupOk : Bool)
    (acts : List ActionStep) :
    ((run_playwright_automation_async env setupOk acts).1 = false ↔
      ∃ r ∈ (run_playwright_automation_async env setupOk acts).2,
        r.status = Status.error) := by
  cases setupOk with
  | true =>
      simp only [run_playwright_automation_async, if_true]
      exact runFrom_ok_iff env acts 0 initState
  | false =>
      simp only [run_playwright_automation_async, Bool.false_eq_true, if_false]
      constructor
      · intro _
        exact ⟨overallErrorResult, by simp, rfl⟩
      · intro _
        trivial

/-- A single-target step whose element cannot be resolved within its
timeout produces exactly the not-found error outcome (playwright_handler.py
lines 379-383). -/
theorem execStep_single_notfound (env : Env) (i : Nat) (st : ExecState)
    (a : ActionStep)
    (hinfo : env.infoOk i = true)
    (hact : toLowerStr a.action ∈ single_element_required_actions)
    (hsel : a.selector ≠ none)
    (hres : env.resolveSingle i = none) :
    execStep env i st a =
      stepError (i + 1) (toLowerStr a.action) a.selector
        "element not found within search depth" [Effect.resolveSingle i] := by
  have hctl : ∀ s ∈ single_element_required_actions,
      s ≠ "switch_to_iframe" ∧ s ≠ "switch_to_parent_frame" ∧
      s ≠ "wait_page_load" ∧ s ≠ "sleep" ∧ s ≠ "scroll_page_to_bottom" := by
    decide
  obtain ⟨hn1, hn2, hn3, hn4, hn5⟩ := hctl _ hact
  unfold execStep
  rw [if_neg (by simp [hinfo])]
  rw [if_neg hn1, if_neg hn2]
  rw [if_neg (by
    intro hc
    rcases hc with hc | hc | hc
    · exact hn3 hc
    · exact hn4 hc
    · exact hn5 hc)]
  unfold execElementPhase
  rw [if_neg (by
    intro hc
    exact hsel hc.2)]
  rw [if_pos (Or.inl hact)]
  rw [hres]

/-- Fail-fast, stated on the loop from an arbitrary start. -/
theorem runFrom_failfast (env : Env) :
    ∀ (acts : List ActionStep) (j i : Nat) (st : ExecState) (a : ActionStep),
    acts.get? j = some a →
    toLowerStr a.action ∈ single_element_required_actions →
    a.selector ≠ none →
    env.infoOk (i + j) = true →
    env.resolveSingle (i + j) = none →
    j < (runFrom env i st acts).results.length →
    ((runFrom env i st acts).results.length = j + 1 ∧
     (∃ r, (runFrom env i st acts).results.get? j = some r ∧
        r.status = Status.error) ∧
     ((runFrom env i st acts).results.countP
        (fun r => decide (r.status = Status.error))) = 1 ∧
     (runFrom env i st acts).ok = false) := by
  intro acts
  induction acts with
  | nil =>
      intro j i st a hget
      simp at hget
  | cons a0 rest ih =>
      intro j i st a hget hact hsel hinfo hres hreach
      cases j with
      | zero =>
          have ha : a0 = a := Option.some.inj hget
          subst ha
          rw [Nat.add_zero] at hinfo hres
          have hstep := execStep_single_notfound env i st a0 hinfo hact hsel hres
          simp [runFrom, hstep, stepError, errResult]
      | succ j' =>
          cases hnext : (execStep env i st a0).next with
          | none =>
              simp [runFrom, hnext] at hreach
          | some st' =>
              have hne : ¬ (execStep env i st a0).result.status = Status.error := by
                intro hc
                have := (execStep_halt_iff env i st a0).mpr hc
                rw [hnext] at this
                cases this
              have harith : i + (j' + 1) = (i + 1) + j' := by omega
              rw [harith] at hinfo hres
              simp only [runFrom, hnext] at hreach ⊢
              simp only [List.length_cons] at hreach
              have hreach' : j' < (runFrom env (i + 1) st' rest).results.length := by
                omega
              have ihr := ih j' (i + 1) st' a hget hact hsel hinfo hres hreach'
              refine ⟨?_, ?_, ?_, ?_⟩
              · simp only [List.length_cons, ihr.1]
              · rcases ihr.2.1 with ⟨r, hr, hrs⟩
                exact ⟨r, by simpa [List.get?] using hr, hrs⟩
              · rw [List.countP_cons]
                simp only [hne, decide_eq_true_eq, if_false]
                have := ihr.2.2.1
                omega
              · exact ihr.2.2.2

/-- C2: the first step that requires a single target element and whose
element cannot be resolved within its timeout appends exactly one error
StepResult (the run contains exactly one error record overall), the
result list ends at that step — no StepResult exists for any later
action — and the run returns `False`.  `hreach` states that the run
reached step j, i.e. no earlier step halted. -/
theorem failfast_on_unresolved_element (env : Env) (acts : List ActionStep)
    (j : Nat) (a : ActionStep)
    (hget : acts.get? j = some a)
    (hact : toLowerStr a.action ∈ single_element_required_actions)
    (hsel : a.selector ≠ none)
    (hinfo : env.infoOk j = true)
    (hres : env.resolveSingle j = none)
    (hreach : j < (execute_actions_async env acts).results.length) :
    (execute_actions_async env acts).results.length = j + 1 ∧
    (∃ r, (execute_actions_async env acts).results.get? j = some r ∧
      r.status = Status.error) ∧
    ((execute_actions_async env acts).results.countP
      (fun r => decide (r.status = Status.error))) = 1 ∧
    (execute_actions_async env acts).ok = false := by
  have hr := runFrom_failfast env acts j 0 initState a hget hact hsel
    (by simpa using hinfo) (by simpa using hres) hreach
  simpa [execute_actions_async] using hr

/-- `switch_to_parent_frame` on an empty stack with the root page
current: warns and keeps the state (playwright_handler.py lines 325-332;
the `current_target = root_page` reset is the identity here). -/
theorem execStep_parent_empty (env : Env) (i : Nat) (st : ExecState) (a : ActionStep)
    (hinfo : env.infoOk i = true)
    (hact : toLowerStr a.action = "switch_to_parent_frame")
    (hemp : st.stack = [])
    (hcur : st.current = ScopeRef.page st.root) :
    execStep env i st a =
      okOut { step := i + 1
              status := Status.warning
              action := toLowerStr a.action
              message := some "Already at top-level or stack empty." } [] st := by
  unfold execStep
  rw [if_neg (by simp [hinfo])]
  rw [if_neg (by rw [hact]; decide)]
  rw [if_pos hact]
  rw [hemp, hcur]

/-- C4: in every run state with an empty scope stack, executing
`switch_to_parent_frame` appends a StepResult with status "warning",
leaves the current scope unchanged, and does not halt the run — the next
step still produces a StepResult.  The state is any state of the actual
run trace; the reachability invariant (`StateInv`) guarantees that with
an empty stack the current scope is the root page, so the
`isinstance(current_target, FrameLocator)` reset branch never changes
the scope. -/
theorem parent_frame_empty_stack_warning (env : Env) (acts : List ActionStep)
    (j : Nat) (a : ActionStep) (s : ExecState)
    (hget : acts.get? j = some a)
    (hact : toLowerStr a.action = "switch_to_parent_frame")
    (hinfo : env.infoOk j = true)
    (hstate : (execute_actions_async env acts).states.get? j = some s)
    (hemp : s.stack = []) :
    (∃ r, (execute_actions_async env acts).results.get? j = some r ∧
      r.status = Status.warning) ∧
    (∃ s2, (execute_actions_async env acts).states.get? (j + 1) = some s2 ∧
      s2.current = s.current ∧ s2.stack = []) ∧
    (j + 1 < acts.length →
      ∃ r2, (execute_actions_async env acts).results.get? (j + 1) = some r2) := by
  have hmem : s ∈ (execute_actions_async env acts).states := List.get?_mem hstate
  have hinv : StateInv s :=
    runFrom_states_pred env StateInv
      (fun i' st' a' st2 hP hn => execStep_preserves_inv env i' st' a' st2 hP hn)
      acts 0 initState ⟨fun _ => rfl, fun b hb => by simp [initState] at hb⟩ s hmem
  have hcur : s.current = ScopeRef.page s.root := hinv.1 hemp
  have hinfo0 : env.infoOk (0 + j) = true := by simpa using hinfo
  have hstep := execStep_parent_empty env (0 + j) s a hinfo0 hact hemp hcur
  have hdec := runFrom_decomp env acts 0 initState j s a hstate hget
  refine ⟨?_, ?_, ?_⟩
  · refine ⟨(execStep env (0 + j) s a).result, hdec.1, ?_⟩
    rw [hstep]
    rfl
  · refine ⟨s, hdec.2 s (by rw [hstep]; rfl), rfl, hemp⟩
  · intro hlt
    have hnext : (execute_actions_async env acts).states.get? (j + 1) = some s :=
      hdec.2 s (by rw [hstep]; rfl)
    have hget2 : ∃ a2, acts.get? (j + 1) = some a2 := by
      rw [List.get?_eq_get hlt]
      exact ⟨_, rfl⟩
    rcases hget2 with ⟨a2, ha2⟩
    have hdec2 := runFrom_decomp env acts 0 initState (j + 1) s a2 hnext ha2
    exact ⟨_, hdec2.1⟩

/-- C10: in every run, after every step the scope stack's entries are
pairwise distinct by identity — both pushes (explicit `switch_to_iframe`
and found-in-descendant promotion) are guarded by an identity-membership
check, and pops, clears and resets only shrink the stack. -/
theorem scope_stack_pairwise_distinct (env : Env) (acts : List ActionStep) :
    ∀ s ∈ (execute_actions_async env acts).states, s.stack.Nodup :=
  runFrom_states_pred env (fun s => s.stack.Nodup)
    (fun i st a st' hP hn => execStep_preserves_stack_nodup env i st a st' hP hn)
    acts 0 initState List.nodup_nil

/-- C8 (amended): a step lacking a required field halts the run
immediately with that step's single error StepResult.  For a missing
`selector` the error is reported before any element-resolution attempt
(no resolution effect); but for `input` without `value` the element is
resolved first — the resolution effect precedes the error — contrary to
the original claim. -/
theorem invalid_step_halts (env : Env) (i : Nat) (st : ExecState) (a : ActionStep)
    (hinfo : env.infoOk i = true) :
    ((toLowerStr a.action ∈ single_element_required_actions ∨
        toLowerStr a.action ∈ multiple_elements_actions) →
      a.selector = none →
      (execStep env i st a).result.status = Status.error ∧
      (execStep env i st a).next = none ∧
      (execStep env i st a).effects = []) ∧
    (toLowerStr a.action = "input" → a.selector ≠ none → a.value = none →
      env.resolveSingle i ≠ none →
      (execStep env i st a).result.status = Status.error ∧
      (execStep env i st a).next = none ∧
      (execStep env i st a).effects = [Effect.resolveSingle i]) := by
  constructor
  · intro hmem hsel
    have hctl : ∀ s ∈ single_element_required_actions ++ multiple_elements_actions,
        s ≠ "switch_to_iframe" ∧ s ≠ "switch_to_parent_frame" ∧
        s ≠ "wait_page_load" ∧ s ≠ "sleep" ∧ s ≠ "scroll_page_to_bottom" := by
      decide
    obtain ⟨hn1, hn2, hn3, hn4, hn5⟩ := hctl _ (List.mem_append.mpr hmem)
    have hcond : ((toLowerStr a.action ∈ single_element_required_actions ∨
        toLowerStr a.action ∈ multiple_elements_actions ∨
        (toLowerStr a.action = "screenshot" ∧ a.selector ≠ none)) ∧
        a.selector = none) := by
      refine ⟨?_, hsel⟩
      rcases hmem with h | h
      · exact Or.inl h
      · exact Or.inr (Or.inl h)
    have hstep : execStep env i st a =
        stepError (i + 1) (toLowerStr a.action) a.selector "requires a selector" [] := by
      unfold execStep
      rw [if_neg (show ¬(env.infoOk i = false) by simp [hinfo])]
      rw [if_neg hn1, if_neg hn2]
      rw [if_neg (show ¬(toLowerStr a.action = "wait_page_load" ∨
          toLowerStr a.action = "sleep" ∨
          toLowerStr a.action = "scroll_page_to_bottom") by
        intro hc
        rcases hc with hc | hc | hc
        · exact hn3 hc
        · exact hn4 hc
        · exact hn5 hc)]
      unfold execElementPhase
      rw [if_pos hcond]
    rw [hstep]
    exact ⟨rfl, rfl, rfl⟩
  · intro hact hsel hval hres
    obtain ⟨sc, hsc⟩ := Option.ne_none_iff_exists'.mp hres
    have hstep : execStep env i st a =
        stepError (i + 1) (toLowerStr a.action) a.selector
          "Input action requires value" [Effect.resolveSingle i] := by
      unfold execStep
      rw [if_neg (show ¬(env.infoOk i = false) by simp [hinfo])]
      rw [if_neg (show ¬(toLowerStr a.action = "switch_to_iframe") by
        rw [hact]; decide)]
      rw [if_neg (show ¬(toLowerStr a.action = "switch_to_parent_frame") by
        rw [hact]; decide)]
      rw [if_neg (show ¬(toLowerStr a.action = "wait_page_load" ∨
          toLowerStr a.action = "sleep" ∨
          toLowerStr a.action = "scroll_page_to_bottom") by rw [hact]; decide)]
      unfold execElementPhase
      rw [if_neg (show ¬((toLowerStr a.action ∈ single_element_required_actions ∨
          toLowerStr a.action ∈ multiple_elements_actions ∨
          (toLowerStr a.action = "screenshot" ∧ a.selector ≠ none)) ∧
          a.selector = none) from fun hc => hsel hc.2)]
      rw [if_pos (show (toLowerStr a.action ∈ single_element_required_actions ∨
          (toLowerStr a.action = "screenshot" ∧ a.selector ≠ none)) from
        Or.inl (by rw [hact]; decide))]
      simp only [hsc]
      unfold execSingleAction
      rw [if_neg (show ¬(toLowerStr a.action = "click") by rw [hact]; decide)]
      rw [if_pos (show toLowerStr a.action = "input" from hact)]
      simp only [hval]
    rw [hstep]
    exact ⟨rfl, rfl, rfl⟩

/-- A mapped position comes from some PDF pair. -/
theorem lastIdxOf_mem (u : String) (pairs : List (String × Nat)) (j : Nat)
    (h : lastIdxOf u pairs = some j) : ∃ p ∈ pairs, p.2 = j := by
  unfold lastIdxOf at h
  cases hg : (pairs.filter (fun p => p.1 = u)).getLast? with
  | none => rw [hg] at h; cases h
  | some q =>
      rw [hg] at h
      have hq : q ∈ pairs.filter (fun p => p.1 = u) := by
        have hm : q ∈ (pairs.filter (fun p => p.1 = u)).getLast? := by
          rw [hg]; rfl
        rcases List.mem_getLast?_eq_getLast hm with ⟨hh, rfl⟩
        exact List.getLast_mem hh
      have hmem := (List.mem_filter.mp hq).1
      have hj : q.2 = j := Option.some.inj h
      exact ⟨q, hmem, hj⟩

/-- The rebuilt list always has the full length `n`. -/
theorem rebuildByUrl_length (n : Nat) (pairs : List (String × Nat))
    (texts : List (Option String)) : (rebuildByUrl n pairs texts).length = n := by
  have key : ∀ (l : List ((String × Nat) × Option String)) (acc : List (Option String)),
      (l.foldl (fun acc pt =>
        match lastIdxOf pt.1.1 pairs with
        | some j => acc.set j pt.2
        | none => acc) acc).length = acc.length := by
    intro l
    induction l with
    | nil => intro acc; rfl
    | cons pt l ih =>
        intro acc
        rw [List.foldl_cons, ih]
        cases hl : lastIdxOf pt.1.1 pairs with
        | none => rfl
        | some j => simp [List.length_set]
    
  unfold rebuildByUrl
  rw [key]
  exact List.length_replicate n none

/-- Positions that no PDF pair maps to keep their initial `None`. -/
theorem rebuildByUrl_untouched (n : Nat) (pairs : List (String × Nat))
    (texts : List (Option String)) (m : Nat)
    (hm : ∀ p ∈ pairs, p.2 ≠ m) :
    (rebuildByUrl n pairs texts).get? m =
      (List.replicate n (none : Option String)).get? m := by
  have key : ∀ (l : List ((String × Nat) × Option String)) (acc : List (Option String)),
      (∀ pt ∈ l, pt.1 ∈ pairs) →
      (l.foldl (fun acc pt =>
        match lastIdxOf pt.1.1 pairs with
        | some j => acc.set j pt.2
        | none => acc) acc).get? m = acc.get? m := by
    intro l
    induction l with
    | nil => intro acc _; rfl
    | cons pt l ih =>
        intro acc hsub
        rw [List.foldl_cons]
        rw [ih _ (fun q hq => hsub q (List.mem_cons_of_mem _ hq))]
        cases hl : lastIdxOf pt.1.1 pairs with
        | none => rfl
        | some j =>
            rcases lastIdxOf_mem pt.1.1 pairs j hl with ⟨p, hp, hpj⟩
            have hj : j ≠ m := by
              rw [← hpj]
              exact hm p hp
            simp only []
            exact List.get?_set_ne pt.2 _ hj
  unfold rebuildByUrl
  exact key (pairs.zip texts) _ (fun pt hpt => (List.of_mem_zip hpt).1)

/-- The PDF link pairs of a resolved element list. -/
def pdfPairsOf (env : Env) (st : ExecState) (found : List (Nat × ScopeRef)) :
    List (String × Nat) :=
  pdfLinkPairs (env.urljoin (env.pageUrl st.root))
    (found.map (fun p => env.elemAttr p.1 "href"))

/-- The rebuilt `pdf_texts` list of a resolved element list. -/
def pdfTextsOf (env : Env) (st : ExecState) (found : List (Nat × ScopeRef)) :
    List (Option String) :=
  rebuildByUrl (found.map (fun p => env.elemAttr p.1 "href")).length
    (pdfPairsOf env st found)
    ((pdfPairsOf env st found).map (fun p => (env.download p.1).map env.extractText))

/-- The "pdf" branch of get_all_attributes, characterized. -/
theorem getAllAttributesBody_pdf (env : Env) (st : ExecState) (a : ActionStep)
    (stepNum : Nat) (action : String) (found : List (Nat × ScopeRef))
    (preEff : List Effect) (an : String)
    (hfound : found ≠ []) (hpdf : toLowerStr an = "pdf") :
    getAllAttributesBody env st a stepNum action found preEff an =
      okOut { successRes stepNum action a.selector with
              pdf_texts :=
                if (pdfTextsOf env st found).all (fun t => t = none) then none
                else some (pdfTextsOf env st found) }
        (preEff ++ (pdfPairsOf env st found).map (fun p => Effect.fetchPdf p.1)
          ++ (pdfPairsOf env st found).filterMap
              (fun p => (env.download p.1).map Effect.extractPdf)) st := by
  unfold getAllAttributesBody pdfTextsOf pdfPairsOf
  rw [if_neg (show ¬(found.isEmpty = true) by
    intro hc
    exact hfound (List.isEmpty_iff.mp hc))]
  rw [if_neg (show ¬(toLowerStr an = "href") by rw [hpdf]; decide)]
  rw [if_pos hpdf]

/-- C3 (amended): the PDF fetch-and-extract pipeline of
`get_all_attributes` runs under `attribute_name = "pdf"`, not "href"
(see the counterexample).  For such a step over n matched elements of
which k have an absolute URL ending in ".pdf": the step succeeds without
halting; exactly k fetch effects occur, one per PDF link in order; the
extract effects are exactly those of the successful downloads; and
whenever the result carries a `pdf_texts` list, that list has length n
and is null at every position no PDF pair maps to (in particular at all
n − k non-PDF positions). -/
theorem get_all_attributes_pdf_fanout (env : Env) (i : Nat) (st : ExecState)
    (a : ActionStep) (an : String)
    (hinfo : env.infoOk i = true)
    (hact : toLowerStr a.action = "get_all_attributes")
    (hsel : a.selector ≠ none)
    (han : a.attribute_name = some an)
    (hpdf : toLowerStr an = "pdf")
    (hfound : env.resolveAll i ≠ []) :
    (execStep env i st a).result.status = Status.success ∧
    (execStep env i st a).next = some st ∧
    ((execStep env i st a).effects.filter Effect.isFetch =
      (pdfPairsOf env st (env.resolveAll i)).map (fun p => Effect.fetchPdf p.1)) ∧
    ((execStep env i st a).effects.filter Effect.isExtract =
      (pdfPairsOf env st (env.resolveAll i)).filterMap
        (fun p => (env.download p.1).map Effect.extractPdf)) ∧
    (∀ L, (execStep env i st a).result.pdf_texts = some L →
      L = pdfTextsOf env st (env.resolveAll i) ∧
      L.length = (env.resolveAll i).length ∧
      (∀ m, m < (env.resolveAll i).length →
        (∀ p ∈ pdfPairsOf env st (env.resolveAll i), p.2 ≠ m) →
        L.get? m = some none)) := by
  have hstep : execStep env i st a =
      getAllAttributesBody env st a (i + 1) (toLowerStr a.action)
        (env.resolveAll i) [Effect.resolveAll i] an := by
    unfold execStep
    rw [if_neg (show ¬(env.infoOk i = false) by simp [hinfo])]
    rw [if_neg (show ¬(toLowerStr a.action = "switch_to_iframe") by
      rw [hact]; decide)]
    rw [if_neg (show ¬(toLowerStr a.action = "switch_to_parent_frame") by
      rw [hact]; decide)]
    rw [if_neg (show ¬(toLowerStr a.action = "wait_page_load" ∨
        toLowerStr a.action = "sleep" ∨
        toLowerStr a.action = "scroll_page_to_bottom") by rw [hact]; decide)]
    unfold execElementPhase
    rw [if_neg (show ¬((toLowerStr a.action ∈ single_element_required_actions ∨
        toLowerStr a.action ∈ multiple_elements_actions ∨
        (toLowerStr a.action = "screenshot" ∧ a.selector ≠ none)) ∧
        a.selector = none) from fun hc => hsel hc.2)]
    rw [if_neg (show ¬(toLowerStr a.action ∈ single_element_required_actions ∨
        (toLowerStr a.action = "screenshot" ∧ a.selector ≠ none)) by
      intro hc
      rcases hc with hc | hc
      · rw [hact] at hc
        exact absurd hc (by decide)
      · rw [hact] at hc
        exact absurd hc.1 (by decide))]
    rw [if_pos (show toLowerStr a.action ∈ multiple_elements_actions by
      rw [hact]; decide)]
    unfold execMultiAction
    rw [if_pos (show toLowerStr a.action = "get_all_attributes" from hact)]
    simp only [han]
  rw [hstep, getAllAttributesBody_pdf env st a (i + 1) (toLowerStr a.action)
    (env.resolveAll i) [Effect.resolveAll i] an hfound hpdf]
  refine ⟨rfl, rfl, ?_, ?_, ?_⟩
  · show (([Effect.resolveAll i] ++
        (pdfPairsOf env st (env.resolveAll i)).map (fun p => Effect.fetchPdf p.1)
        ++ (pdfPairsOf env st (env.resolveAll i)).filterMap
            (fun p => (env.download p.1).map Effect.extractPdf)).filter
        Effect.isFetch) = _
    rw [List.filter_append, List.filter_append]
    rw [show ([Effect.resolveAll i].filter Effect.isFetch) = [] from rfl]
    rw [List.filter_eq_self.mpr (by
      intro e he
      rcases List.mem_map.mp he with ⟨p, _, rfl⟩
      rfl)]
    rw [List.filter_eq_nil_iff.mpr (by
      intro e he
      rcases List.mem_filterMap.mp he with ⟨p, _, hp⟩
      rcases Option.map_eq_some'.mp hp with ⟨b, _, rfl⟩
      simp [Effect.isExtract, Effect.isFetch])]
    simp
  · show (([Effect.resolveAll i] ++
        (pdfPairsOf env st (env.resolveAll i)).map (fun p => Effect.fetchPdf p.1)
        ++ (pdfPairsOf env st (env.resolveAll i)).filterMap
            (fun p => (env.download p.1).map Effect.extractPdf)).filter
        Effect.isExtract) = _
    rw [List.filter_append, List.filter_append]
    rw [show ([Effect.resolveAll i].filter Effect.isExtract) = [] from rfl]
    rw [List.filter_eq_nil_iff.mpr (by
      intro e he
      rcases List.mem_map.mp he with ⟨p, _, rfl⟩
      simp [Effect.isFetch, Effect.isExtract])]
    rw [List.filter_eq_self.mpr (by
      intro e he
      rcases List.mem_filterMap.mp he with ⟨p, _, hp⟩
      rcases Option.map_eq_some'.mp hp with ⟨b, _, rfl⟩
      rfl)]
    simp
  · intro L hL
    have hLval : L = pdfTextsOf env st (env.resolveAll i) := by
      by_cases hall : (pdfTextsOf env st (env.resolveAll i)).all (fun t => t = none) = true
      · rw [show ((okOut { successRes (i + 1) (toLowerStr a.action) a.selector with
            pdf_texts :=
              if (pdfTextsOf env st (env.resolveAll i)).all (fun t => t = none) then none
              else some (pdfTextsOf env st (env.resolveAll i)) }
            ([Effect.resolveAll i] ++
              (pdfPairsOf env st (env.resolveAll i)).map (fun p => Effect.fetchPdf p.1)
              ++ (pdfPairsOf env st (env.resolveAll i)).filterMap
                  (fun p => (env.download p.1).map Effect.extractPdf)) st).result.pdf_texts)
            = (if (pdfTextsOf env st (env.resolveAll i)).all (fun t => t = none) then none
              else some (pdfTextsOf env st (env.resolveAll i))) from rfl] at hL
        rw [if_pos hall] at hL
        cases hL
      · rw [show ((okOut { successRes (i + 1) (toLowerStr a.action) a.selector with
            pdf_texts :=
              if (pdfTextsOf env st (env.resolveAll i)).all (fun t => t = none) then none
              else some (pdfTextsOf env st (env.resolveAll i)) }
            ([Effect.resolveAll i] ++
              (pdfPairsOf env st (env.resolveAll i)).map (fun p => Effect.fetchPdf p.1)
              ++ (pdfPairsOf env st (env.resolveAll i)).filterMap
                  (fun p => (env.download p.1).map Effect.extractPdf)) st).result.pdf_texts)
            = (if (pdfTextsOf env st (env.resolveAll i)).all (fun t => t = none) then none
              else some (pdfTextsOf env st (env.resolveAll i))) from rfl] at hL
        rw [if_neg hall] at hL
        exact (Option.some.inj hL).symm
    refine ⟨hLval, ?_, ?_⟩
    · rw [hLval]
      unfold pdfTextsOf
      rw [rebuildByUrl_length]
      exact List.length_map _ _
    · intro m hm hnp
      rw [hLval]
      unfold pdfTextsOf
      rw [rebuildByUrl_untouched _ _ _ m (by
        intro p hp
        exact hnp p (by exact hp))]
      rw [List.get?_eq_getElem?, List.getElem?_replicate]
      rw [if_pos (by rw [List.length_map]; exact hm)]

/-- Concrete oracle for witnesses: resolution succeeds, every href is
"x.pdf", downloads and extraction succeed. -/
def envFound : Env :=
  { infoOk := fun _ => true
    iframeScope := fun _ => none
    resolveSingle := fun _ => some (ScopeRef.page 0)
    resolveAll := fun _ => [(5, ScopeRef.page 0)]
    actionOk := fun _ => true
    clickNewPage := fun _ => none
    pageUrl := fun _ => ""
    urljoin := fun _ u => u
    attrValue := fun _ => none
    elemAttr := fun _ _ => some "x.pdf"
    download := fun _ => some 1
    extractText := fun _ => "TEXT"
    pageText := fun _ => ""
    textContent := fun _ => none }

/-- Concrete oracle whose single-element resolution times out. -/
def envMissing : Env :=
  { envFound with resolveSingle := fun _ => none }

/-- Concrete get_all_attributes step with attribute_name "pdf". -/
def stepPdfW : ActionStep :=
  { action := "get_all_attributes", selector := some "a", attribute_name := some "pdf" }

/-- Concrete get_all_attributes step with attribute_name "href". -/
def stepHrefW : ActionStep :=
  { action := "get_all_attributes", selector := some "a", attribute_name := some "href" }

/-- Counterexample to C3 as stated: a `get_all_attributes` step with
`attribute_name = "href"` over one matched link whose absolute URL ends
in ".pdf" (k = 1) performs zero PDF fetch operations and its result
carries no `pdf_texts` at all — only the absolute-URL list — where the
claim requires exactly one fetch-and-extract and a `pdf_texts` list. -/
theorem get_all_attributes_href_no_pdf_pipeline :
    endsWithPdf (envFound.urljoin (envFound.pageUrl 0) "x.pdf") = true ∧
    (execute_actions_async envFound [stepHrefW]).effects.filter Effect.isFetch = [] ∧
    (∃ r, (execute_actions_async envFound [stepHrefW]).results.get? 0 = some r ∧
      r.pdf_texts = none ∧ r.status = Status.success ∧
      r.url_lists = some [some "x.pdf"]) := by
  refine ⟨by decide, by decide, ⟨_, rfl, by decide, by decide, by decide⟩⟩

/-- Witness for C3 (amended): at the concrete oracle, the "pdf" step
over one matched link performs exactly one fetch and carries
`pdf_texts = [some "TEXT"]`. -/
theorem pdf_fanout_witness :
    ((execStep envFound 0 initState stepPdfW).effects.filter Effect.isFetch =
      (pdfPairsOf envFound initState (envFound.resolveAll 0)).map
        (fun p => Effect.fetchPdf p.1)) ∧
    (execStep envFound 0 initState stepPdfW).result.status = Status.success ∧
    (execStep envFound 0 initState stepPdfW).result.pdf_texts = some [some "TEXT"] :=
  ⟨(get_all_attributes_pdf_fanout envFound 0 initState stepPdfW "pdf" rfl (by decide)
      (by decide) rfl (by decide) (by decide)).2.2.1,
   (get_all_attributes_pdf_fanout envFound 0 initState stepPdfW "pdf" rfl (by decide)
      (by decide) rfl (by decide) (by decide)).1,
   by decide⟩

/-- Witness for C2: a one-step script whose click target never
resolves produces exactly one error result and stops. -/
theorem failfast_on_unresolved_element_witness :
    (execute_actions_async envMissing
      [{ action := "click", selector := some "#b" }]).results.length = 0 + 1 ∧
    (∃ r, (execute_actions_async envMissing
      [{ action := "click", selector := some "#b" }]).results.get? 0 = some r ∧
      r.status = Status.error) ∧
    ((execute_actions_async envMissing
      [{ action := "click", selector := some "#b" }]).results.countP
      (fun r => decide (r.status = Status.error))) = 1 ∧
    (execute_actions_async envMissing
      [{ action := "click", selector := some "#b" }]).ok = false :=
  failfast_on_unresolved_element envMissing
    [{ action := "click", selector := some "#b" }] 0
    { action := "click", selector := some "#b" } rfl (by decide) (by decide)
    rfl rfl (by decide)

/-- Witness for C4: `switch_to_parent_frame` as the first step of a
run warns and keeps the initial scope. -/
theorem parent_frame_empty_stack_warning_witness :
    (∃ r, (execute_actions_async envFound
      [{ action := "switch_to_parent_frame" }]).results.get? 0 = some r ∧
      r.status = Status.warning) ∧
    (∃ s2, (execute_actions_async envFound
      [{ action := "switch_to_parent_frame" }]).states.get? (0 + 1) = some s2 ∧
      s2.current = initState.current ∧ s2.stack = []) ∧
    (0 + 1 < ([{ action := "switch_to_parent_frame" }] : List ActionStep).length →
      ∃ r2, (execute_actions_async envFound
        [{ action := "switch_to_parent_frame" }]).results.get? (0 + 1) = some r2) :=
  parent_frame_empty_stack_warning envFound [{ action := "switch_to_parent_frame" }]
    0 { action := "switch_to_parent_frame" } initState rfl (by decide) rfl
    (by decide) rfl

/-- Witness for C10: the initial state occurs in a run trace and its
stack is duplicate-free. -/
theorem scope_stack_pairwise_distinct_witness :
    initState ∈ (execute_actions_async envFound
      [{ action := "switch_to_iframe", iframe_selector := some "#f" }]).states ∧
    initState.stack.Nodup :=
  ⟨by decide,
   scope_stack_pairwise_distinct envFound
     [{ action := "switch_to_iframe", iframe_selector := some "#f" }]
     initState (by decide)⟩

/-- A click step lacking its required selector. -/
def stepNoSel : ActionStep := { action := "click" }

/-- An input step lacking its required value. -/
def stepNoVal : ActionStep := { action := "input", selector := some "#q" }

/-- Witness for C8 (amended): both invalid steps halt with one error;
the selector-less one without any resolution effect, the value-less one
after a resolution effect. -/
theorem invalid_step_halts_witness :
    ((execStep envFound 0 initState stepNoSel).result.status = Status.error ∧
      (execStep envFound 0 initState stepNoSel).next = none ∧
      (execStep envFound 0 initState stepNoSel).effects = []) ∧
    ((execStep envFound 0 initState stepNoVal).result.status = Status.error ∧
      (execStep envFound 0 initState stepNoVal).next = none ∧
      (execStep envFound 0 initState stepNoVal).effects = [Effect.resolveSingle 0]) :=
  ⟨(invalid_step_halts envFound 0 initState stepNoSel rfl).1 (Or.inl (by decide)) rfl,
   (invalid_step_halts envFound 0 initState stepNoVal rfl).2 (by decide) (by decide)
     rfl (by decide)⟩

/-- Counterexample to C8 as stated: for `input` without `value`, with
a resolvable element, the run halts with the step's error but the
element-resolution effect for that step occurs first — the error is not
reported before the resolution attempt. -/
theorem invalid_step_error_after_resolution :
    ((execute_actions_async envFound [stepNoVal]).results.map
      (fun r => r.status) = [Status.error]) ∧
    ((execute_actions_async envFound [stepNoVal]).effects =
      [Effect.resolveSingle 0]) ∧
    ((execute_actions_async envFound [stepNoVal]).effects.filter
      Effect.isResolve ≠ []) := by
  exact ⟨by decide, by decide, by decide⟩
